import Mathlib

/-!
# Verification of the Nobel laureates API server

A shallow embedding of the core of `server.py`: the laureate record store
and its mutation handlers (`create_laureate`, `update_laureate`,
`delete_laureate`), the two aggregation endpoints (`get_laureates`,
`get_countries` via `compute_country_counts`), the id allocator
(`_get_next_laureate_id`), and the rate-limiting middleware (`limitador`),
together with theorems settling the specification's claims about them.

Conventions of the embedding:
* Python dict fields that may be absent are `Option` fields; a JSON `null`
  stored in a field is modelled as the field being absent (`none`) wherever
  the code treats both the same way, and explicitly otherwise.
* Values that the code may receive either as an integer or as a string
  (record ids, award years read back from the data file) are modelled by
  `PyVal`.
* Code that can raise a `TypeError` at runtime (comparing an `int` filter
  bound against a `str` award year) is modelled in the `Except Unit` monad.
* Python's in-place mutation of a dict obtained by aliasing a list element
  is modelled by writing the updated record back into the list at the same
  index at the moment of the mutation.
-/

open List

namespace Nobel

/-- A scalar as it can appear in a stored record's `id` field or a prize's
`awardYear` field: an integer or a string.  (`server.py` normally stores
string ids and integer years, but the data file is loaded as-is, so both
shapes can reach the code.) -/
inductive PyVal where
  | vint (n : Int)
  | vstr (s : String)
deriving DecidableEq, Repr

/-! ## Model of Python `int(str)` and `str(int)` -/

/-- Parse a list of characters as a base-10 numeral (all characters must be
digits, and the list must be non-empty), as Python `int()` does for the
digit part of its argument. -/
def parseNatDigits (cs : List Char) : Option Nat :=
  if cs.isEmpty then none
  else if cs.all Char.isDigit then
    some (cs.foldl (fun v c => 10 * v + (c.toNat - 48)) 0)
  else none

/-- Model of Python `int(s)` on the character list of a string: an optional
leading minus sign followed by one or more digits; anything else raises
`ValueError`, modelled as `none`. -/
def pyIntOfChars : List Char → Option Int
  | [] => none
  | c :: cs =>
    if c = '-' then (parseNatDigits cs).map (fun (n : Nat) => -(n : Int))
    else (parseNatDigits (c :: cs)).map (fun (n : Nat) => (n : Int))

/-- Model of Python `int(s)` on a string. -/
def pyIntOfString (s : String) : Option Int := pyIntOfChars s.data

/-- The character for a decimal digit `d < 10`. -/
def digitChar (d : Nat) : Char := Char.ofNat (48 + d)

/-- Big-endian decimal digits of `n`, prepended to `acc`.  The first
argument is fuel; `natDecimal` passes `n` itself, which always suffices,
so the `0`-fuel branch is only reached with `n < 10`. -/
def natDigitsGo : Nat → Nat → List Char → List Char
  | 0, n, acc => digitChar n :: acc
  | fuel+1, n, acc =>
    if n < 10 then digitChar n :: acc
    else natDigitsGo fuel (n / 10) (digitChar (n % 10) :: acc)

/-- Model of Python `str(n)` for a natural number. -/
def natDecimal (n : Nat) : String := ⟨natDigitsGo n n []⟩

/-- Model of Python `str(n)` for an integer. -/
def intDecimal (n : Int) : String :=
  if n < 0 then "-" ++ natDecimal n.natAbs else natDecimal n.toNat

theorem digitChar_isDigit {d : Nat} (h : d < 10) : (digitChar d).isDigit = true := by
  interval_cases d <;> decide

theorem digitChar_toNat {d : Nat} (h : d < 10) : (digitChar d).toNat = 48 + d := by
  interval_cases d <;> decide

theorem natDigitsGo_append :
    ∀ (fuel n : Nat) (acc : List Char), n ≤ fuel →
      natDigitsGo fuel n acc = natDigitsGo fuel n [] ++ acc := by
  intro fuel
  induction fuel with
  | zero =>
    intro n acc h
    interval_cases n
    rfl
  | succ fuel ih =>
    intro n acc h
    by_cases h10 : n < 10
    · simp [natDigitsGo, h10]
    · have hle : n / 10 ≤ fuel := by omega
      simp only [natDigitsGo, if_neg h10]
      rw [ih (n / 10) (digitChar (n % 10) :: acc) hle,
          ih (n / 10) (digitChar (n % 10) :: []) hle]
      simp

theorem natDigitsGo_fuelIrrel :
    ∀ (fuel₁ fuel₂ n : Nat) (acc : List Char), n ≤ fuel₁ → n ≤ fuel₂ →
      natDigitsGo fuel₁ n acc = natDigitsGo fuel₂ n acc := by
  intro fuel₁
  induction fuel₁ with
  | zero =>
    intro fuel₂ n acc h₁ h₂
    interval_cases n
    cases fuel₂ <;> simp [natDigitsGo]
  | succ fuel ih =>
    intro fuel₂ n acc h₁ h₂
    by_cases h10 : n < 10
    · cases fuel₂ with
      | zero =>
        interval_cases n
        simp [natDigitsGo]
      | succ fuel₂ => simp [natDigitsGo, h10]
    · cases fuel₂ with
      | zero => omega
      | succ fuel₂ =>
        simp only [natDigitsGo, if_neg h10]
        exact ih fuel₂ (n / 10) _ (by omega) (by omega)

theorem natDecimal_data_lt {n : Nat} (h : n < 10) :
    (natDecimal n).data = [digitChar n] := by
  interval_cases n <;> rfl

theorem natDecimal_data_ge {n : Nat} (h : 10 ≤ n) :
    (natDecimal n).data = (natDecimal (n / 10)).data ++ [digitChar (n % 10)] := by
  show natDigitsGo n n [] = natDigitsGo (n / 10) (n / 10) [] ++ [digitChar (n % 10)]
  obtain ⟨m, rfl⟩ : ∃ m, n = m + 1 := ⟨n - 1, by omega⟩
  simp only [natDigitsGo, if_neg (by omega : ¬ m + 1 < 10)]
  rw [natDigitsGo_append m ((m + 1) / 10) _ (by omega),
      natDigitsGo_fuelIrrel m ((m + 1) / 10) ((m + 1) / 10) [] (by omega) (le_refl _)]

theorem natDecimal_data_ne_nil (n : Nat) : (natDecimal n).data ≠ [] := by
  induction n using Nat.strong_induction_on with
  | _ n ih =>
    by_cases h : n < 10
    · rw [natDecimal_data_lt h]; simp
    · rw [natDecimal_data_ge (by omega)]; simp

theorem natDecimal_all_digits (n : Nat) :
    (natDecimal n).data.all Char.isDigit = true := by
  induction n using Nat.strong_induction_on with
  | _ n ih =>
    by_cases h : n < 10
    · rw [natDecimal_data_lt h]; simp [digitChar_isDigit h]
    · rw [natDecimal_data_ge (by omega)]
      simp only [List.all_append, List.all_cons, List.all_nil]
      rw [ih (n / 10) (Nat.div_lt_self (by omega) (by omega))]
      simp [digitChar_isDigit (Nat.mod_lt n (by omega))]

theorem natDecimal_foldl (n : Nat) :
    ∀ v : Nat, (natDecimal n).data.foldl (fun v c => 10 * v + (c.toNat - 48)) v =
      v * 10 ^ (natDecimal n).data.length + n := by
  induction n using Nat.strong_induction_on with
  | _ n ih =>
    intro v
    by_cases h : n < 10
    · rw [natDecimal_data_lt h]
      simp [digitChar_toNat h, Nat.mul_comm]
    · rw [natDecimal_data_ge (by omega)]
      rw [List.foldl_append, List.length_append]
      rw [ih (n / 10) (Nat.div_lt_self (by omega) (by omega)) v]
      simp only [List.foldl_cons, List.foldl_nil, List.length_cons, List.length_nil]
      rw [digitChar_toNat (Nat.mod_lt n (by omega))]
      rw [Nat.pow_succ]
      have hdiv : 10 * (n / 10) + n % 10 = n := by omega
      ring_nf
      omega

theorem parseNatDigits_natDecimal (n : Nat) :
    parseNatDigits (natDecimal n).data = some n := by
  rw [parseNatDigits]
  rw [if_neg (by simpa using natDecimal_data_ne_nil n)]
  rw [if_pos (natDecimal_all_digits n)]
  rw [natDecimal_foldl n 0]
  simp

theorem natDecimal_head_digit (n : Nat) :
    ∃ c cs, (natDecimal n).data = c :: cs ∧ c.isDigit = true := by
  have hne := natDecimal_data_ne_nil n
  have hall := natDecimal_all_digits n
  cases h : (natDecimal n).data with
  | nil => exact absurd h hne
  | cons c cs =>
    refine ⟨c, cs, rfl, ?_⟩
    rw [h] at hall
    simp only [List.all_cons, Bool.and_eq_true] at hall
    exact hall.1

/-- Round trip: Python `int(str(n)) == n`. -/
theorem pyIntOfString_intDecimal (n : Int) : pyIntOfString (intDecimal n) = some n := by
  by_cases h : n < 0
  · rw [intDecimal, if_pos h, pyIntOfString]
    have hdata : ("-" ++ natDecimal n.natAbs).data = '-' :: (natDecimal n.natAbs).data := by
      rw [String.data_append]; rfl
    rw [hdata, pyIntOfChars, if_pos rfl, parseNatDigits_natDecimal]
    simp only [Option.map_some']
    congr 1
    omega
  · rw [intDecimal, if_neg h, pyIntOfString]
    obtain ⟨c, cs, hdata, hdig⟩ := natDecimal_head_digit n.toNat
    have hc : c ≠ '-' := by
      intro he; rw [he] at hdig; exact absurd hdig (by decide)
    rw [hdata, pyIntOfChars, if_neg hc, ← hdata, parseNatDigits_natDecimal]
    simp only [Option.map_some']
    congr 1
    omega

/-- `intDecimal` is injective (it has a left inverse). -/
theorem intDecimal_injective : Function.Injective intDecimal := by
  intro a b h
  have := pyIntOfString_intDecimal a
  rw [h, pyIntOfString_intDecimal b] at this
  exact (Option.some_injective _ this).symm

/-! ## Data model: simplified laureate records

The simplified record shape produced by `simplify_laureate` and stored in
`data/laureates.json` / `LAUREATES_DATA`.  Fields that a record dict may
lack are `Option`s; a field holding JSON `null` is modelled as `none`
whenever the code treats the two identically. -/

/-- A prize as stored in a laureate record
(`{"awardYear": ..., "category": ..., "motivation": ...}`). -/
structure Prize where
  awardYear : Option PyVal
  category : Option String
  motivation : Option String
deriving DecidableEq, Repr, Inhabited

/-- A laureate record as stored in `LAUREATES_DATA`. -/
structure Laureate where
  id : Option PyVal
  fullName : Option String
  gender : Option String
  birthDate : Option String
  birthCity : Option String
  birthCountry : Option String
  nobelPrizes : List Prize
deriving DecidableEq, Repr, Inhabited

/-- Python falsiness of an optional string (`not s` for a value that is
either missing, `None`, or a string). -/
def strFalsy : Option String → Bool
  | none => true
  | some s => s.isEmpty

/-- `str(x)` applied to a record's `id` field value
(as in `_find_laureate_index_by_id`). -/
def pyStrVal : Option PyVal → String
  | some (.vint n) => intDecimal n
  | some (.vstr s) => s
  | none => "None"

/-! ## Record Store primitives (`server.py`) -/

/-- `int(laureate.get("id", 0))` guarded by `try/except (TypeError,
ValueError)` in `_get_next_laureate_id`: `none` means the exception was
raised and the record is skipped. -/
def idAsInt (l : Laureate) : Option Int :=
  match l.id with
  | none => some 0
  | some (.vint n) => some n
  | some (.vstr s) => pyIntOfString s

/-- One step of the `max_id` scan of `_get_next_laureate_id`:
`if cur > max_id: max_id = cur`, skipping unparseable ids. -/
def maxIdStep (m : Int) (l : Laureate) : Int :=
  match idAsInt l with
  | some n => if n > m then n else m
  | none => m

/-- The `max_id` scan of `_get_next_laureate_id`. -/
def maxLaureateId (data : List Laureate) : Int :=
  data.foldl maxIdStep 0

/-- `_get_next_laureate_id`: `str(max_id + 1)` where `max_id` starts at 0
and ids that fail to parse as integers are ignored. -/
def getNextLaureateId (data : List Laureate) : String :=
  intDecimal (maxLaureateId data + 1)

/-- `_find_laureate_index_by_id`: first index whose id's string form equals
the given id string, or `none`. -/
def findLaureateIdx (data : List Laureate) (lid : String) : Option Nat :=
  data.findIdx? (fun l => pyStrVal l.id == lid)

/-- The server's mutable state relevant to mutations: the in-memory
`LAUREATES_DATA` list and the laureate list serialized in
`data/laureates.json` (`save_laureates_to_file` overwrites the file with
the in-memory list). -/
structure Store where
  mem : List Laureate
  file : List Laureate
deriving DecidableEq, Repr, Inhabited

/-! ## Mutation request payloads -/

/-- One element of the `nobelPrizes` list in a request body.  `notADict`
stands for any JSON value that is not an object.  Inside an object,
`awardYear` is `none` when the key is absent or holds `null` (both raise
in `int(prize["awardYear"])` and produce the same 400), and `category` /
`motivation` are `none` when absent or `null` (both falsy). -/
inductive PrizeInput where
  | notADict
  | pdict (awardYear : Option PyVal) (category : Option String) (motivation : Option String)
deriving DecidableEq, Repr

/-- The value found under the `"nobelPrizes"` key of a request body. -/
inductive PrizesField where
  | pnull
  | notAList
  | plist (l : List PrizeInput)
deriving DecidableEq, Repr

/-- HTTP-level failures raised by the handlers. -/
inductive HErr where
  | badRequest (detail : String)
  | notFound
  | unauthorized
deriving DecidableEq, Repr

/-- `int(prize["awardYear"])` with `KeyError/ValueError/TypeError` caught:
`none` means the 400 branch is taken. -/
def prizeYearInt : Option PyVal → Option Int
  | some (.vint n) => some n
  | some (.vstr s) => pyIntOfString s
  | none => none

/-- Validation and normalization of one prize object — the loop body
shared verbatim by `create_laureate` and `update_laureate`. -/
def cleanPrize : PrizeInput → Except HErr Prize
  | .notADict => .error (.badRequest "Cada premio debe ser un objeto JSON")
  | .pdict ay cat mot =>
    match prizeYearInt ay with
    | none => .error (.badRequest "Cada premio debe tener 'awardYear' numérico")
    | some y =>
      if strFalsy cat || strFalsy mot then
        .error (.badRequest "Cada premio debe tener 'category' y 'motivation'")
      else .ok { awardYear := some (.vint y), category := cat, motivation := mot }

/-- The `nobelPrizes` validation of `create_laureate` / `update_laureate`:
must be a (non-null, non-empty) list, and every element must clean up;
the first offending element's error is raised. -/
def cleanPrizes : PrizesField → Except HErr (List Prize)
  | .pnull => .error (.badRequest "nobelPrizes debe ser una lista no vacía")
  | .notAList => .error (.badRequest "nobelPrizes debe ser una lista no vacía")
  | .plist l =>
    if l.isEmpty then .error (.badRequest "nobelPrizes debe ser una lista no vacía")
    else l.mapM cleanPrize

/-- Body of a `POST /laureates` request.  Simple fields are `none` when the
key is absent (the handler only checks key presence; the stored value is
`str(payload[field])`, modelled for string inputs as the string itself). -/
structure CreatePayload where
  fullName : Option String
  gender : Option String
  birthDate : Option String
  birthCity : Option String
  birthCountry : Option String
  nobelPrizes : Option PrizesField
deriving DecidableEq, Repr

/-- Body of a `PUT /laureates/{id}` request.  For each simple field:
`none` = key absent, `some none` = key present holding `null` (skipped by
`payload[field] is not None`), `some (some v)` = key present with value
`v`. -/
structure UpdatePayload where
  fullName : Option (Option String)
  gender : Option (Option String)
  birthDate : Option (Option String)
  birthCity : Option (Option String)
  birthCountry : Option (Option String)
  nobelPrizes : Option PrizesField
deriving DecidableEq, Repr

/-! ## Mutation handlers -/

/-- `create_laureate` (after the auth dependency): required-field check in
source order, prize validation, id allocation, append, persist.  On any
validation error the store is untouched. -/
def createLaureate (s : Store) (p : CreatePayload) : Except HErr Laureate × Store :=
  if p.fullName.isNone then
    (.error (.badRequest "Falta el campo obligatorio 'fullName'"), s)
  else if p.gender.isNone then
    (.error (.badRequest "Falta el campo obligatorio 'gender'"), s)
  else if p.birthDate.isNone then
    (.error (.badRequest "Falta el campo obligatorio 'birthDate'"), s)
  else if p.birthCity.isNone then
    (.error (.badRequest "Falta el campo obligatorio 'birthCity'"), s)
  else if p.birthCountry.isNone then
    (.error (.badRequest "Falta el campo obligatorio 'birthCountry'"), s)
  else match p.nobelPrizes with
    | none => (.error (.badRequest "Falta el campo obligatorio 'nobelPrizes'"), s)
    | some pf =>
      match cleanPrizes pf with
      | .error e => (.error e, s)
      | .ok cleaned =>
        let nuevo : Laureate :=
          { id := some (.vstr (getNextLaureateId s.mem)),
            fullName := p.fullName,
            gender := p.gender,
            birthDate := p.birthDate,
            birthCity := p.birthCity,
            birthCountry := p.birthCountry,
            nobelPrizes := cleaned }
        let mem' := s.mem ++ [nuevo]
        (.ok nuevo, { mem := mem', file := mem' })

/-- One simple-field step of `update_laureate`:
`if field in payload and payload[field] is not None:
laureate[field] = str(payload[field])`. -/
def updField (cur : Option String) : Option (Option String) → Option String
  | some (some v) => some v
  | some none => cur
  | none => cur

/-- The simple-field loop of `update_laureate` applied to a record. -/
def applySimpleFields (l : Laureate) (p : UpdatePayload) : Laureate :=
  { l with
    fullName := updField l.fullName p.fullName
    gender := updField l.gender p.gender
    birthDate := updField l.birthDate p.birthDate
    birthCity := updField l.birthCity p.birthCity
    birthCountry := updField l.birthCountry p.birthCountry }

/-- `update_laureate`.  The Python handler mutates the stored dict in
place through the alias `laureate = LAUREATES_DATA[idx]`, so the simple
fields are already written into the in-memory list *before* the
`nobelPrizes` validation runs; if that validation raises, the in-memory
list keeps the updated simple fields while the file is not rewritten. -/
def updateLaureate (s : Store) (lid : String) (p : UpdatePayload) :
    Except HErr Laureate × Store :=
  match findLaureateIdx s.mem lid with
  | none => (.error .notFound, s)
  | some idx =>
    let l0 := s.mem.getD idx default
    let l1 := applySimpleFields l0 p
    let mem1 := s.mem.set idx l1
    match p.nobelPrizes with
    | none => (.ok l1, { mem := mem1, file := mem1 })
    | some .pnull => (.ok l1, { mem := mem1, file := mem1 })
    | some pf =>
      match cleanPrizes pf with
      | .error e => (.error e, { mem := mem1, file := s.file })
      | .ok cleaned =>
        let l2 := { l1 with nobelPrizes := cleaned }
        let mem2 := mem1.set idx l2
        (.ok l2, { mem := mem2, file := mem2 })

/-- `delete_laureate`: locate by id, excise, persist; the response carries
the path id and the removed record's `fullName`. -/
def deleteLaureate (s : Store) (lid : String) :
    Except HErr (String × Option String) × Store :=
  match findLaureateIdx s.mem lid with
  | none => (.error .notFound, s)
  | some idx =>
    let eliminado := s.mem.getD idx default
    let mem' := s.mem.eraseIdx idx
    (.ok (lid, eliminado.fullName), { mem := mem', file := mem' })

instance {ε α : Type} [DecidableEq ε] [DecidableEq α] : DecidableEq (Except ε α)
  | .ok x, .ok y =>
    if h : x = y then .isTrue (congrArg Except.ok h)
    else .isFalse (fun he => h (Except.ok.inj he))
  | .error x, .error y =>
    if h : x = y then .isTrue (congrArg Except.error h)
    else .isFalse (fun he => h (Except.error.inj he))
  | .ok _, .error _ => .isFalse (fun he => Except.noConfusion he)
  | .error _, .ok _ => .isFalse (fun he => Except.noConfusion he)

/-! ## Concrete records and payloads used in counterexamples and witnesses -/

/-- A well-formed stored prize. -/
def samplePrize : Prize :=
  { awardYear := some (.vint 1903), category := some "Physics",
    motivation := some "radioactivity research" }

/-- A well-formed stored laureate with id `"1"`. -/
def sampleLaureate : Laureate :=
  { id := some (.vstr "1"), fullName := some "Marie Curie",
    gender := some "female", birthDate := some "1867-11-07",
    birthCity := some "Warsaw", birthCountry := some "Poland",
    nobelPrizes := [samplePrize] }

/-- A store holding exactly `sampleLaureate`, memory and file in sync. -/
def sampleStore : Store := { mem := [sampleLaureate], file := [sampleLaureate] }

/-- The empty store (fresh server with an empty data file). -/
def emptyStore : Store := { mem := [], file := [] }

/-- A fully valid create payload. -/
def adaPayload : CreatePayload :=
  { fullName := some "Ada Lovelace", gender := some "female",
    birthDate := some "1815-12-10", birthCity := some "London",
    birthCountry := some "United Kingdom",
    nobelPrizes := some (.plist [.pdict (some (.vint 2025)) (some "Physics") (some "demo")]) }

/-- An update payload that renames the laureate but supplies an invalid
prize list (its only prize lacks `awardYear`). -/
def badPrizesUpdate : UpdatePayload :=
  { fullName := some (some "Renamed Person"), gender := none,
    birthDate := none, birthCity := none, birthCountry := none,
    nobelPrizes := some (.plist [.pdict none (some "Physics") (some "x")]) }

/-- The record `create_laureate` builds for `adaPayload` on `sampleStore`
(the allocator hands out `"2"` there). -/
def adaStored2 : Laureate :=
  { id := some (.vstr "2"), fullName := some "Ada Lovelace",
    gender := some "female", birthDate := some "1815-12-10",
    birthCity := some "London", birthCountry := some "United Kingdom",
    nobelPrizes := [{ awardYear := some (.vint 2025), category := some "Physics",
                      motivation := some "demo" }] }

/-! ## Properties of id allocation -/

theorem maxIdStep_le (m : Int) (l : Laureate) : m ≤ maxIdStep m l := by
  cases h : idAsInt l <;> simp [maxIdStep, h]
  split <;> omega

theorem foldl_maxIdStep_le_init (data : List Laureate) :
    ∀ init : Int, init ≤ data.foldl maxIdStep init := by
  induction data with
  | nil => intro init; exact le_refl _
  | cons l rest ih =>
    intro init
    simp only [List.foldl_cons]
    exact le_trans (maxIdStep_le init l) (ih (maxIdStep init l))

theorem idAsInt_le_foldl (data : List Laureate) :
    ∀ init : Int, ∀ l ∈ data, ∀ n : Int, idAsInt l = some n →
      n ≤ data.foldl maxIdStep init := by
  induction data with
  | nil => simp
  | cons x rest ih =>
    intro init l hl n hn
    simp only [List.foldl_cons]
    rcases List.mem_cons.mp hl with rfl | hl'
    · refine le_trans ?_ (foldl_maxIdStep_le_init rest (maxIdStep init l))
      simp only [maxIdStep, hn]
      split <;> omega
    · exact ih (maxIdStep init x) l hl' n hn

theorem maxLaureateId_nonneg (data : List Laureate) : 0 ≤ maxLaureateId data :=
  foldl_maxIdStep_le_init data 0

theorem idAsInt_le_max {data : List Laureate} {l : Laureate} (hl : l ∈ data)
    {n : Int} (hn : idAsInt l = some n) : n ≤ maxLaureateId data :=
  idAsInt_le_foldl data 0 l hl n hn

/-- No record currently in the collection has an id whose string form
equals the id the allocator will hand out next. -/
theorem pyStrVal_ne_next (data : List Laureate) (m : Laureate) (hm : m ∈ data) :
    pyStrVal m.id ≠ getNextLaureateId data := by
  intro he
  have hparse : pyIntOfString (pyStrVal m.id) = some (maxLaureateId data + 1) := by
    rw [he, getNextLaureateId, pyIntOfString_intDecimal]
  rcases hid : m.id with _ | v
  · rw [hid] at hparse
    rw [show pyStrVal none = "None" from rfl] at hparse
    rw [show pyIntOfString "None" = none from by decide] at hparse
    exact Option.noConfusion hparse
  · rcases v with n | s
    · rw [hid] at hparse
      rw [show pyStrVal (some (.vint n)) = intDecimal n from rfl,
        pyIntOfString_intDecimal] at hparse
      have hn : n = maxLaureateId data + 1 := Option.some.inj hparse
      have hle : n ≤ maxLaureateId data := idAsInt_le_max hm (by simp [idAsInt, hid])
      omega
    · rw [hid] at hparse
      rw [show pyStrVal (some (.vstr s)) = s from rfl] at hparse
      have hle : maxLaureateId data + 1 ≤ maxLaureateId data :=
        idAsInt_le_max hm (by simp [idAsInt, hid]; exact hparse)
      omega

/-- Inversion of a successful `create_laureate`: the shape of the created
record and of the resulting store. -/
theorem createLaureate_ok (s : Store) (p : CreatePayload) (l : Laureate) (s' : Store)
    (h : createLaureate s p = (.ok l, s')) :
    p.fullName.isSome = true ∧
    ∃ pf cleaned, p.nobelPrizes = some pf ∧ cleanPrizes pf = .ok cleaned ∧
      l = { id := some (.vstr (getNextLaureateId s.mem)),
            fullName := p.fullName, gender := p.gender,
            birthDate := p.birthDate, birthCity := p.birthCity,
            birthCountry := p.birthCountry, nobelPrizes := cleaned } ∧
      s' = { mem := s.mem ++ [l], file := s.mem ++ [l] } := by
  unfold createLaureate at h
  split at h
  · simp at h
  · split at h
    · simp at h
    · split at h
      · simp at h
      · split at h
        · simp at h
        · split at h
          · simp at h
          · split at h
            · simp at h
            · rename_i hfn _ _ _ _ _ pf hpf
              split at h
              · simp at h
              · rename_i cleaned hclean
                simp only [Prod.mk.injEq] at h
                obtain ⟨h1, h2⟩ := h
                have hl := (Except.ok.inj h1)
                refine ⟨by simp at hfn; exact Option.isSome_iff_ne_none.mpr hfn, pf, cleaned, hpf, hclean, hl.symm, ?_⟩
                rw [← h2, hl]

/-! ## Claim C2: id allocation -/

/-- Claim C2 counterexample: starting from an empty store, a valid create
allocates id `"1"`; after deleting that record, a second identical create
allocates id `"1"` again — the id of a previously deleted record is
reused, and the new id is not strictly greater than every previously
allocated numeric id. -/
theorem create_delete_create_reuses_id :
    ((createLaureate emptyStore adaPayload).2.mem.map Laureate.id = [some (.vstr "1")]) ∧
    ((deleteLaureate (createLaureate emptyStore adaPayload).2 "1").2.mem = []) ∧
    ((createLaureate (deleteLaureate (createLaureate emptyStore adaPayload).2 "1").2
        adaPayload).2.mem.map Laureate.id = [some (.vstr "1")]) := by
  decide

/-- Claim C2 (amended): every id returned by a valid create is unique in
the collection as it stands at creation time, and parses to
`max(current numeric ids) + 1`, strictly greater than every numeric id
currently present (non-numeric ids ignored, max starting at 0); ids of
previously deleted records are not protected and may be reused. -/
theorem create_id_unique_and_above_current (s : Store) (p : CreatePayload)
    (l : Laureate) (s' : Store) (h : createLaureate s p = (.ok l, s')) :
    (∀ m ∈ s.mem, pyStrVal m.id ≠ pyStrVal l.id) ∧
    idAsInt l = some (maxLaureateId s.mem + 1) ∧
    (∀ m ∈ s.mem, ∀ n : Int, idAsInt m = some n → n < maxLaureateId s.mem + 1) ∧
    s'.mem = s.mem ++ [l] := by
  obtain ⟨-, pf, cleaned, hpf, hclean, hl, hs'⟩ := createLaureate_ok s p l s' h
  refine ⟨?_, ?_, ?_, by rw [hs']⟩
  · intro m hm he
    apply pyStrVal_ne_next s.mem m hm
    rw [he, hl]
    rfl
  · rw [hl]
    simp only [idAsInt, getNextLaureateId]
    exact pyIntOfString_intDecimal _
  · intro m hm n hn
    have := idAsInt_le_max hm hn
    omega

/-- Witness for the amended C2 at a concrete store and payload. -/
theorem create_id_unique_and_above_current_witness :
    createLaureate sampleStore adaPayload =
      (.ok adaStored2, { mem := [sampleLaureate, adaStored2],
                         file := [sampleLaureate, adaStored2] }) ∧
    ((∀ m ∈ sampleStore.mem, pyStrVal m.id ≠ pyStrVal adaStored2.id) ∧
     idAsInt adaStored2 = some (maxLaureateId sampleStore.mem + 1) ∧
     (∀ m ∈ sampleStore.mem, ∀ n : Int, idAsInt m = some n →
        n < maxLaureateId sampleStore.mem + 1) ∧
     (({ mem := [sampleLaureate, adaStored2],
         file := [sampleLaureate, adaStored2] } : Store)).mem =
       sampleStore.mem ++ [adaStored2]) :=
  ⟨by decide,
   create_id_unique_and_above_current sampleStore adaPayload adaStored2
     { mem := [sampleLaureate, adaStored2], file := [sampleLaureate, adaStored2] }
     (by decide)⟩

/-! ## Claim C1: update atomicity -/

/-- Claim C1 (code bug): an update whose `nobelPrizes` list fails
validation is rejected with a 400, yet the stored record is *not* left
unchanged — the simple fields supplied in the same request (here
`fullName`) are already applied to the in-memory record, because the
handler mutates the aliased dict before validating the prizes; the file
is not rewritten, so memory and file also disagree afterwards. -/
theorem update_invalid_prizes_leaves_partial_update :
    (updateLaureate sampleStore "1" badPrizesUpdate).1 =
      .error (.badRequest "Cada premio debe tener 'awardYear' numérico") ∧
    (updateLaureate sampleStore "1" badPrizesUpdate).2.mem.map Laureate.fullName =
      [some "Renamed Person"] ∧
    (updateLaureate sampleStore "1" badPrizesUpdate).2.mem ≠ sampleStore.mem ∧
    (updateLaureate sampleStore "1" badPrizesUpdate).2.file = sampleStore.file := by
  decide

/-! ## Claim C8: fullName after creation -/

/-- A create payload whose `fullName` is the empty string but which is
otherwise fully valid. -/
def emptyNamePayload : CreatePayload :=
  { fullName := some "", gender := some "unknown", birthDate := some "2000-01-01",
    birthCity := some "Oslo", birthCountry := some "Norway",
    nobelPrizes := some (.plist [.pdict (some (.vint 2001)) (some "Peace") (some "m")]) }

/-- Claim C8 counterexample: `create_laureate` only checks that the
`fullName` key is present, so a create with `fullName = ""` is accepted
and stores a laureate whose `fullName` is empty. -/
theorem create_accepts_empty_fullName :
    (createLaureate emptyStore emptyNamePayload).1.isOk = true ∧
    (createLaureate emptyStore emptyNamePayload).2.mem.map Laureate.fullName =
      [some ""] := by
  decide

/-- Claim C8 (amended): for every create request accepted by the Mutation
API, the stored laureate's `fullName` is exactly the supplied `fullName`
value — which must be present but may be the empty string; the sentinel
default for missing names is never applied during direct creation
(non-emptiness is not guaranteed). -/
theorem create_stores_supplied_fullName (s : Store) (p : CreatePayload)
    (l : Laureate) (s' : Store) (h : createLaureate s p = (.ok l, s')) :
    l.fullName = p.fullName ∧ p.fullName.isSome = true ∧ s'.mem = s.mem ++ [l] := by
  obtain ⟨hsome, pf, cleaned, hpf, hclean, hl, hs'⟩ := createLaureate_ok s p l s' h
  exact ⟨by rw [hl], hsome, by rw [hs']⟩

/-- The record stored for `emptyNamePayload` on the empty store. -/
def emptyNameStored : Laureate :=
  { id := some (.vstr "1"), fullName := some "", gender := some "unknown",
    birthDate := some "2000-01-01", birthCity := some "Oslo",
    birthCountry := some "Norway",
    nobelPrizes := [{ awardYear := some (.vint 2001), category := some "Peace",
                      motivation := some "m" }] }

/-- Witness for the amended C8 at a concrete payload (with an empty
supplied name). -/
theorem create_stores_supplied_fullName_witness :
    createLaureate emptyStore emptyNamePayload =
      (.ok emptyNameStored, { mem := [emptyNameStored], file := [emptyNameStored] }) ∧
    (emptyNameStored.fullName = emptyNamePayload.fullName ∧
     emptyNamePayload.fullName.isSome = true ∧
     (({ mem := [emptyNameStored], file := [emptyNameStored] } : Store)).mem =
       emptyStore.mem ++ [emptyNameStored]) :=
  ⟨by decide,
   create_stores_supplied_fullName emptyStore emptyNamePayload emptyNameStored
     { mem := [emptyNameStored], file := [emptyNameStored] } (by decide)⟩

/-! ## Aggregation engine

`compute_country_counts` / `get_countries` and `get_laureates`, embedded
in the `Except Unit` monad because the year-range comparison raises a
`TypeError` when an `int` filter bound meets a `str` award year. -/

/-- The year-range logic (`in_range`) shared verbatim by
`compute_country_counts` and `get_laureates`, acting on the raw
`awardYear` value after the `is None` guard.  Python's chained
`year <= award_year <= yearto` and `award_year <= yearto` raise
`TypeError` when `award_year` is a string, whereas `award_year == year`
is simply `False` for a string, and the no-filter case never inspects the
value. -/
def inRangeCode (year yearto : Option Int) (ay : PyVal) : Except Unit Bool :=
  match year, yearto, ay with
  | some y, some yt, .vint n => .ok (decide (y ≤ n) && decide (n ≤ yt))
  | some _, some _, .vstr _ => .error ()
  | some y, none, .vint n => .ok (decide (n = y))
  | some _, none, .vstr _ => .ok false
  | none, some yt, .vint n => .ok (decide (n ≤ yt))
  | none, some _, .vstr _ => .error ()
  | none, none, _ => .ok true

/-- `laureate.get("birthCountry") or "Unknown"`. -/
def countryOf (l : Laureate) : String :=
  match l.birthCountry with
  | some s => if s.isEmpty then "Unknown" else s
  | none => "Unknown"

/-- `laureate.get("fullName") or "Nombre desconocido"` in `get_laureates`. -/
def displayName (l : Laureate) : String :=
  match l.fullName with
  | some s => if s.isEmpty then "Nombre desconocido" else s
  | none => "Nombre desconocido"

/-- The category filter of `compute_country_counts`: only applied when a
discipline was given (`discipline_lower`); skips prizes whose category is
falsy or does not match case-insensitively. -/
def catPass (dLower : Option String) (cat : Option String) : Bool :=
  match dLower with
  | none => true
  | some d =>
    match cat with
    | none => false
    | some c => if c.isEmpty then false else c.toLower == d

/-- `country_counts[country] = country_counts.get(country, 0) + 1` on an
insertion-ordered association list (a Python dict preserves insertion
order). -/
def bumpCount (counts : List (String × Nat)) (k : String) : List (String × Nat) :=
  if counts.any (fun p => p.1 == k) then
    counts.map (fun p => if p.1 == k then (p.1, p.2 + 1) else p)
  else counts ++ [(k, 1)]

/-- The per-prize loop body of `compute_country_counts`. -/
def ccPrizeStep (dLower : Option String) (year yearto : Option Int) (country : String)
    (counts : List (String × Nat)) (p : Prize) : Except Unit (List (String × Nat)) :=
  if !catPass dLower p.category then .ok counts
  else match p.awardYear with
    | none => .ok counts
    | some ay =>
      match inRangeCode year yearto ay with
      | .error e => .error e
      | .ok b => if b then .ok (bumpCount counts country) else .ok counts

/-- `compute_country_counts`. -/
def computeCountryCounts (data : List Laureate) (discipline : Option String)
    (year yearto : Option Int) : Except Unit (List (String × Nat)) :=
  data.foldlM
    (fun counts l =>
      l.nobelPrizes.foldlM
        (ccPrizeStep (discipline.map String.toLower) year yearto (countryOf l)) counts)
    []

/-- `sorted(country_counts.items(), key=lambda x: x[1], reverse=True)`:
Python's stable sort by the count, descending (ties keep their original
relative order). -/
def sortCountsDesc (counts : List (String × Nat)) : List (String × Nat) :=
  counts.mergeSort (fun a b => decide (b.2 ≤ a.2))

/-- `GET /countries`: the sorted `results` list. -/
def getCountries (data : List Laureate) (discipline : Option String)
    (year yearto : Option Int) : Except Unit (List (String × Nat)) :=
  (computeCountryCounts data discipline year yearto).map sortCountsDesc

/-- `GET /countries`: `total_count = sum(country_counts.values())`. -/
def countriesTotalCount (data : List Laureate) (discipline : Option String)
    (year yearto : Option Int) : Except Unit Nat :=
  (computeCountryCounts data discipline year yearto).map (fun cs => (cs.map Prod.snd).sum)

/-- `year_groups[awardYear]`: an insertion-ordered dict from award-year
key to a dict from category to the list of display names. -/
abbrev CatGroups := List (String × List String)

abbrev YearGroups := List (PyVal × CatGroups)

/-- `disciplines_dict.setdefault(cat_en, []).append(full_name)`. -/
def addToCat (cats : CatGroups) (c n : String) : CatGroups :=
  if cats.any (fun p => p.1 == c) then
    cats.map (fun p => if p.1 == c then (p.1, p.2 ++ [n]) else p)
  else cats ++ [(c, [n])]

/-- `year_groups.setdefault(award_year, {})` followed by the category
append. -/
def addToYear (groups : YearGroups) (y : PyVal) (c n : String) : YearGroups :=
  if groups.any (fun g => g.1 == y) then
    groups.map (fun g => if g.1 == y then (g.1, addToCat g.2 c n) else g)
  else groups ++ [(y, [(c, [n])])]

/-- The per-prize loop body of `get_laureates`: skip falsy categories
(even without a discipline filter), then the discipline filter, then the
`awardYear is None` guard, then the shared range logic. -/
def glPrizeStep (dLower : Option String) (year yearto : Option Int) (name : String)
    (groups : YearGroups) (p : Prize) : Except Unit YearGroups :=
  match p.category with
  | none => .ok groups
  | some c =>
    if c.isEmpty then .ok groups
    else if (match dLower with
             | some d => !(c.toLower == d)
             | none => false) then .ok groups
    else match p.awardYear with
      | none => .ok groups
      | some ay =>
        match inRangeCode year yearto ay with
        | .error e => .error e
        | .ok b => if b then .ok (addToYear groups ay c name) else .ok groups

/-- The grouping pass of `get_laureates`. -/
def buildYearGroups (data : List Laureate) (dLower : Option String)
    (year yearto : Option Int) : Except Unit YearGroups :=
  data.foldlM
    (fun gs l => l.nobelPrizes.foldlM (glPrizeStep dLower year yearto (displayName l)) gs)
    []

/-- Python `<` on the dict keys as used by `sorted(year_groups.keys())`;
only meaningful on keys of one kind (see `sortedPyKeys`). -/
def pyKeyLe : PyVal → PyVal → Bool
  | .vint m, .vint n => decide (m ≤ n)
  | .vstr s, .vstr t => decide (s ≤ t)
  | .vint _, .vstr _ => true
  | .vstr _, .vint _ => false

def isVint : PyVal → Bool
  | .vint _ => true
  | .vstr _ => false

/-- Python `sorted` over the year keys: succeeds (stably, ascending) when
the keys are all ints or all strings, raises `TypeError` on a mixture. -/
def sortedPyKeys (ks : List PyVal) : Except Unit (List PyVal) :=
  if ks.all isVint || ks.all (fun k => !isVint k) then .ok (ks.mergeSort pyKeyLe)
  else .error ()

/-- One element of a `disciplines` list in the `GET /laureates` response. -/
structure DiscEntry where
  discipline : String
  count : Nat
  laureates : List String
deriving DecidableEq, Repr

/-- One element of the `results` list in the `GET /laureates` response. -/
structure YearEntry where
  awardYear : PyVal
  disciplines : List DiscEntry
deriving DecidableEq, Repr

/-- The `GET /laureates` response (filters echoed back omitted). -/
structure LaureatesResp where
  total_count : Nat
  results : List YearEntry
deriving DecidableEq, Repr

/-- Indexing `disciplines_dict[cat]`: first entry with the key (keys are
unique by construction, and the key is always present when read). -/
def lookupCat : CatGroups → String → List String
  | [], _ => []
  | q :: rest, c => if q.1 == c then q.2 else lookupCat rest c

/-- Indexing `year_groups[award_year]`. -/
def lookupYear : YearGroups → PyVal → CatGroups
  | [], _ => []
  | g :: rest, y => if g.1 == y then g.2 else lookupYear rest y

def strLe (a b : String) : Bool := decide (a ≤ b)

/-- The inner response loop: categories of one year in sorted order. -/
def buildDiscEntries (cats : CatGroups) : List DiscEntry :=
  ((cats.map Prod.fst).mergeSort strLe).map
    (fun c => { discipline := c, count := (lookupCat cats c).length,
                laureates := lookupCat cats c })

/-- The outer response loop: years in sorted order. -/
def buildResults (groups : YearGroups) (ks : List PyVal) : List YearEntry :=
  ks.map (fun y => { awardYear := y, disciplines := buildDiscEntries (lookupYear groups y) })

/-- `GET /laureates`. -/
def getLaureates (data : List Laureate) (discipline : Option String)
    (year yearto : Option Int) : Except Unit LaureatesResp :=
  match buildYearGroups data (discipline.map String.toLower) year yearto with
  | .error e => .error e
  | .ok groups =>
    match sortedPyKeys (groups.map Prod.fst) with
    | .error e => .error e
    | .ok ks =>
      let results := buildResults groups ks
      .ok { total_count :=
              ((results.map (fun ye => (ye.disciplines.map DiscEntry.count).sum)).sum),
            results := results }

/-! ## Admission controller (`limitador` middleware) and request pipeline -/

/-- `VENTANA = timedelta(seconds=1)`.  Timestamps and durations are
modelled in integer microseconds, the internal resolution of CPython
`datetime` / `timedelta` values. -/
def VENTANA : ℤ := 1000000

/-- `MAX_PETICIONES = 5`. -/
def MAX_PETICIONES : Nat := 5

/-- The eviction loop
`while cubo and (ahora - cubo[0]) > VENTANA: cubo.popleft()`.
The deque holds timestamps oldest first. -/
def evictOld (ahora : ℤ) : List ℤ → List ℤ
  | [] => []
  | t :: rest => if ahora - t > VENTANA then evictOld ahora rest else t :: rest

/-- One admission decision of the `limitador` middleware on one client's
deque: evict, then either deny (length at the limit, nothing recorded) or
record `ahora` and admit. -/
def limitadorAdmit (cubo : List ℤ) (ahora : ℤ) : Bool × List ℤ :=
  let cubo' := evictOld ahora cubo
  if MAX_PETICIONES ≤ cubo'.length then (false, cubo')
  else (true, cubo' ++ [ahora])

/-- A sequence of admission decisions against one client's deque, with the
given call timestamps; returns the decisions and the final deque. -/
def runAdmits (cubo : List ℤ) : List ℤ → List Bool × List ℤ
  | [] => ([], cubo)
  | t :: ts =>
    let r := limitadorAdmit cubo t
    let rest := runAdmits r.2 ts
    (r.1 :: rest.1, rest.2)

/-- HTTP methods reaching the server. -/
inductive Method where
  | mget
  | mpost
  | mput
  | mdelete
deriving DecidableEq, Repr

/-- `metodo in ("POST", "PUT", "DELETE")`. -/
def mutatingMethod : Method → Bool
  | .mget => false
  | .mpost => true
  | .mput => true
  | .mdelete => true

/-- The route a request's path resolves to (`unknown` = no route). -/
inductive ReqPath where
  | root
  | laureates
  | countries
  | countriesMap
  | search
  | laureateId (lid : String)
  | unknown
deriving DecidableEq, Repr

/-- An incoming HTTP request, with the query parameters and bodies the
handlers read. -/
structure Request where
  method : Method
  path : ReqPath
  creds : Option (String × String)
  createBody : Option CreatePayload
  updateBody : Option UpdatePayload
  nameQ : Option String
  discipline : Option String
  yearQ : Option Int
  yeartoQ : Option Int
  client : String
  now : ℤ
deriving Repr

/-- A response, reduced to its status code (response bodies are modelled
at the handler level). -/
structure Response where
  status : Nat
deriving DecidableEq, Repr

/-- `USUARIOS = {"admin": "nobel2025"}`. -/
def USUARIOS : List (String × String) := [("admin", "nobel2025")]

/-- `verificar_credenciales`, together with FastAPI's `HTTPBasic`
dependency which itself rejects requests carrying no credentials: accept
iff the username is known and the password compares equal. -/
def credsOk : Option (String × String) → Bool
  | none => false
  | some (u, pw) =>
    match (USUARIOS.find? (fun x => x.1 == u)).map Prod.snd with
    | none => false
    | some correct => pw == correct

/-- Status code of a handler failure. -/
def errStatus : HErr → Nat
  | .badRequest _ => 400
  | .notFound => 404
  | .unauthorized => 401

/-- Routing and handler execution as FastAPI performs it *after* the
middleware: path resolution (unknown path → 404, known path with an
unsupported method → 405), then the auth dependency for the mutating
handlers, then body validation (missing body → 422), then the handler. -/
def dispatch (store : Store) (req : Request) : Response × Store :=
  match req.path, req.method with
  | .root, .mget => ({ status := 200 }, store)
  | .laureates, .mget =>
    match getLaureates store.mem req.discipline req.yearQ req.yeartoQ with
    | .ok _ => ({ status := 200 }, store)
    | .error _ => ({ status := 500 }, store)
  | .countries, .mget =>
    match getCountries store.mem req.discipline req.yearQ req.yeartoQ with
    | .ok _ => ({ status := 200 }, store)
    | .error _ => ({ status := 500 }, store)
  | .countriesMap, .mget =>
    match computeCountryCounts store.mem req.discipline req.yearQ req.yeartoQ with
    | .ok [] => ({ status := 404 }, store)
    | .ok _ => ({ status := 200 }, store)
    | .error _ => ({ status := 500 }, store)
  | .search, .mget =>
    match req.nameQ with
    | none => ({ status := 422 }, store)
    | some _ => ({ status := 200 }, store)
  | .laureates, .mpost =>
    if !credsOk req.creds then ({ status := 401 }, store)
    else match req.createBody with
      | none => ({ status := 422 }, store)
      | some p =>
        let r := createLaureate store p
        match r.1 with
        | .ok _ => ({ status := 200 }, r.2)
        | .error e => ({ status := errStatus e }, r.2)
  | .laureateId lid, .mput =>
    if !credsOk req.creds then ({ status := 401 }, store)
    else match req.updateBody with
      | none => ({ status := 422 }, store)
      | some p =>
        let r := updateLaureate store lid p
        match r.1 with
        | .ok _ => ({ status := 200 }, r.2)
        | .error e => ({ status := errStatus e }, r.2)
  | .laureateId lid, .mdelete =>
    if !credsOk req.creds then ({ status := 401 }, store)
    else
      let r := deleteLaureate store lid
      match r.1 with
      | .ok _ => ({ status := 200 }, r.2)
      | .error e => ({ status := errStatus e }, r.2)
  | .unknown, _ => ({ status := 404 }, store)
  | _, _ => ({ status := 405 }, store)

/-- The whole server state seen by the middleware: the record store and
the per-client deques `cubos_ip`. -/
structure ServerState where
  store : Store
  cubos : List (String × List ℤ)
deriving DecidableEq, Repr

/-- `cubos_ip.setdefault(ip, deque())`, read. -/
def lookupCubo (cubos : List (String × List ℤ)) (ip : String) : List ℤ :=
  ((cubos.find? (fun x => x.1 == ip)).map Prod.snd).getD []

/-- The effect on `cubos_ip` of the deque mutations (pop and append happen
in place; `setdefault` inserts a fresh entry at the end for a new ip). -/
def setCubo (cubos : List (String × List ℤ)) (ip : String) (q : List ℤ) :
    List (String × List ℤ) :=
  if cubos.any (fun x => x.1 == ip) then
    cubos.map (fun x => if x.1 == ip then (ip, q) else x)
  else cubos ++ [(ip, q)]

/-- The `limitador` middleware wrapping `dispatch`: for POST/PUT/DELETE it
first evicts and decides on the client's deque — returning 429 without
calling anything further on denial — and only then lets routing, auth,
validation and the handler run. -/
def handleRequest (st : ServerState) (req : Request) : Response × ServerState :=
  if mutatingMethod req.method then
    let r := limitadorAdmit (lookupCubo st.cubos req.client) req.now
    let st' : ServerState := { st with cubos := setCubo st.cubos req.client r.2 }
    if r.1 then
      let d := dispatch st'.store req
      (d.1, { st' with store := d.2 })
    else ({ status := 429 }, st')
  else
    let d := dispatch st.store req
    (d.1, { st with store := d.2 })

/-! ## Properties of the admission controller -/

/-- On a sorted (oldest-first) deque — the invariant maintained by calls
with non-decreasing timestamps — the pop-from-the-front eviction loop
removes exactly the timestamps older than `ahora - VENTANA`. -/
theorem evictOld_eq_filter (now : ℤ) (q : List ℤ) (hq : q.Sorted (· ≤ ·)) :
    evictOld now q = q.filter (fun t => decide (now - VENTANA ≤ t)) := by
  induction q with
  | nil => rfl
  | cons t rest ih =>
    rw [List.sorted_cons] at hq
    obtain ⟨hall, hrest⟩ := hq
    by_cases h : now - t > VENTANA
    · rw [evictOld, if_pos h, ih hrest, List.filter_cons]
      have hne : ¬ (now - VENTANA ≤ t) := by
        intro hc
        exact absurd h (by simp; linarith)
      simp [hne]
    · rw [evictOld, if_neg h]
      have h2 : now - VENTANA ≤ t := by
        have := not_lt.mp h
        linarith
      have hkeep : ∀ u ∈ t :: rest, decide (now - VENTANA ≤ u) = true := by
        intro u hu
        rcases List.mem_cons.mp hu with rfl | hu'
        · simpa using h2
        · have := hall u hu'
          simp only [decide_eq_true_eq]
          linarith
      exact (List.filter_eq_self.mpr hkeep).symm

theorem limitadorAdmit_denied {q : List ℤ} {now : ℤ}
    (h : (limitadorAdmit q now).1 = false) :
    (limitadorAdmit q now).2 = evictOld now q := by
  by_cases hc : MAX_PETICIONES ≤ (evictOld now q).length
  · simp [limitadorAdmit, hc]
  · simp [limitadorAdmit, hc] at h

theorem limitadorAdmit_admitted {q : List ℤ} {now : ℤ}
    (h : (limitadorAdmit q now).1 = true) :
    (limitadorAdmit q now).2 = evictOld now q ++ [now] := by
  by_cases hc : MAX_PETICIONES ≤ (evictOld now q).length
  · simp [limitadorAdmit, hc] at h
  · simp [limitadorAdmit, hc]

/-! ## Claim C3: sliding-window admission -/

/-- Claim C3: on a sorted deque (the invariant for non-decreasing call
times) each admission call first evicts exactly the timestamps older than
`now - W`, then admits and records `now` iff fewer than `N = 5`
timestamps remain, and otherwise denies without recording and the
middleware answers 429; in the concrete scenario, five admitted calls
inside one window are followed by a denied sixth, and a call made once
time has advanced past `W` from the first admitted call is admitted
again. -/
theorem admission_sliding_window (q : List ℤ) (now : ℤ) (hq : q.Sorted (· ≤ ·)) :
    (limitadorAdmit q now =
      if (q.filter (fun t => decide (now - VENTANA ≤ t))).length < MAX_PETICIONES
      then (true, q.filter (fun t => decide (now - VENTANA ≤ t)) ++ [now])
      else (false, q.filter (fun t => decide (now - VENTANA ≤ t)))) ∧
    (∀ st : ServerState, ∀ req : Request, mutatingMethod req.method = true →
      (limitadorAdmit (lookupCubo st.cubos req.client) req.now).1 = false →
      (handleRequest st req).1.status = 429 ∧
      (handleRequest st req).2.cubos =
        setCubo st.cubos req.client
          (evictOld req.now (lookupCubo st.cubos req.client))) ∧
    ((runAdmits [] [0, 1, 2, 3, 4, 4, 1000001]).1 =
      [true, true, true, true, true, false, true]) := by
  refine ⟨?_, ?_, by decide⟩
  · simp only [limitadorAdmit, evictOld_eq_filter now q hq]
    by_cases hlen :
        (q.filter (fun t => decide (now - VENTANA ≤ t))).length < MAX_PETICIONES
    · rw [if_neg (Nat.not_le.mpr hlen), if_pos hlen]
    · rw [if_pos (Nat.le_of_not_lt hlen), if_neg hlen]
  · intro st req hm hdeny
    constructor
    · simp [handleRequest, hm, hdeny]
    · simp [handleRequest, hm, hdeny, limitadorAdmit_denied hdeny]

/-- Witness for C3 at the sorted deque `[]` and call time `0`. -/
theorem admission_sliding_window_witness :
    ([] : List ℤ).Sorted (· ≤ ·) ∧
    ((limitadorAdmit [] 0 =
      if (([] : List ℤ).filter (fun t => decide ((0 : ℤ) - VENTANA ≤ t))).length <
           MAX_PETICIONES
      then (true, ([] : List ℤ).filter (fun t => decide ((0 : ℤ) - VENTANA ≤ t)) ++ [0])
      else (false, ([] : List ℤ).filter (fun t => decide ((0 : ℤ) - VENTANA ≤ t)))) ∧
    (∀ st : ServerState, ∀ req : Request, mutatingMethod req.method = true →
      (limitadorAdmit (lookupCubo st.cubos req.client) req.now).1 = false →
      (handleRequest st req).1.status = 429 ∧
      (handleRequest st req).2.cubos =
        setCubo st.cubos req.client
          (evictOld req.now (lookupCubo st.cubos req.client))) ∧
    ((runAdmits [] [0, 1, 2, 3, 4, 4, 1000001]).1 =
      [true, true, true, true, true, false, true])) :=
  ⟨by simp, admission_sliding_window [] 0 (by simp)⟩

/-! ## Claim C10: the limiter runs before routing, auth and validation -/

/-- A server state with the sample store and no rate-limit history. -/
def st0 : ServerState := { store := sampleStore, cubos := [] }

/-- A POST to `/laureates` with a wrong password. -/
def post401Req : Request :=
  { method := .mpost, path := .laureates, creds := some ("admin", "wrong"),
    createBody := some adaPayload, updateBody := none, nameQ := none,
    discipline := none, yearQ := none, yeartoQ := none, client := "c", now := 0 }

/-- A DELETE aimed at a path that resolves to no route. -/
def unknownPathReq : Request :=
  { method := .mdelete, path := .unknown, creds := none,
    createBody := none, updateBody := none, nameQ := none,
    discipline := none, yearQ := none, yeartoQ := none, client := "c", now := 0 }

/-- A correctly authenticated PUT whose body fails prize validation. -/
def putBadReq : Request :=
  { method := .mput, path := .laureateId "1", creds := some ("admin", "nobel2025"),
    createBody := none, updateBody := some badPrizesUpdate, nameQ := none,
    discipline := none, yearQ := none, yeartoQ := none, client := "c", now := 0 }

/-- Claim C10: for every POST/PUT/DELETE request the middleware updates
the client's deque (eviction, plus the recorded timestamp when admitted)
irrespective of what routing, auth, validation or the handler later
answer; concretely, a 401 (bad credentials), a 404 (nonexistent path) and
a 400 (invalid body) each still consume a rate-limit slot. -/
theorem mutating_requests_consume_slot (st : ServerState) (req : Request)
    (hm : mutatingMethod req.method = true) :
    ((handleRequest st req).2.cubos =
      setCubo st.cubos req.client
        (limitadorAdmit (lookupCubo st.cubos req.client) req.now).2) ∧
    ((limitadorAdmit (lookupCubo st.cubos req.client) req.now).1 = true →
      (limitadorAdmit (lookupCubo st.cubos req.client) req.now).2 =
        evictOld req.now (lookupCubo st.cubos req.client) ++ [req.now]) ∧
    ((handleRequest st0 post401Req).1.status = 401 ∧
     (handleRequest st0 post401Req).2.cubos = [("c", [0])]) ∧
    ((handleRequest st0 unknownPathReq).1.status = 404 ∧
     (handleRequest st0 unknownPathReq).2.cubos = [("c", [0])]) ∧
    ((handleRequest st0 putBadReq).1.status = 400 ∧
     (handleRequest st0 putBadReq).2.cubos = [("c", [0])]) := by
  refine ⟨?_, fun hA => limitadorAdmit_admitted hA, by decide, by decide, by decide⟩
  simp only [handleRequest, hm, if_true]
  split <;> rfl

/-- Witness for C10 at a concrete mutating request. -/
theorem mutating_requests_consume_slot_witness :
    mutatingMethod post401Req.method = true ∧
    (((handleRequest st0 post401Req).2.cubos =
      setCubo st0.cubos post401Req.client
        (limitadorAdmit (lookupCubo st0.cubos post401Req.client) post401Req.now).2) ∧
    ((limitadorAdmit (lookupCubo st0.cubos post401Req.client) post401Req.now).1 = true →
      (limitadorAdmit (lookupCubo st0.cubos post401Req.client) post401Req.now).2 =
        evictOld post401Req.now (lookupCubo st0.cubos post401Req.client) ++
          [post401Req.now]) ∧
    ((handleRequest st0 post401Req).1.status = 401 ∧
     (handleRequest st0 post401Req).2.cubos = [("c", [0])]) ∧
    ((handleRequest st0 unknownPathReq).1.status = 404 ∧
     (handleRequest st0 unknownPathReq).2.cubos = [("c", [0])]) ∧
    ((handleRequest st0 putBadReq).1.status = 400 ∧
     (handleRequest st0 putBadReq).2.cubos = [("c", [0])])) :=
  ⟨by decide, mutating_requests_consume_slot st0 post401Req (by decide)⟩

/-! ## The year-range predicate: specification side and code side -/

/-- Modelled from the spec: the year-range predicate exactly as the
specification's table states it (both bounds inclusive; equality when
only `year` is set; upper bound only when only `yearTo` is set). -/
def specYearPredicate (year yearto : Option Int) (awardYear : Int) : Prop :=
  match year, yearto with
  | some y, some yt => y ≤ awardYear ∧ awardYear ≤ yt
  | some y, none => awardYear = y
  | none, some yt => awardYear ≤ yt
  | none, none => True

instance (y yt : Option Int) (n : Int) : Decidable (specYearPredicate y yt n) := by
  rcases y with _ | y <;> rcases yt with _ | yt <;>
    simp only [specYearPredicate] <;> infer_instance

/-- The code's `in_range` computation specialised to an integer award year
(no branch raises on ints). -/
def inRangeInt (year yearto : Option Int) (n : Int) : Bool :=
  match year, yearto with
  | some y, some yt => decide (y ≤ n) && decide (n ≤ yt)
  | some y, none => decide (n = y)
  | none, some yt => decide (n ≤ yt)
  | none, none => true

theorem inRangeCode_vint (year yearto : Option Int) (n : Int) :
    inRangeCode year yearto (.vint n) = .ok (inRangeInt year yearto n) := by
  rcases year with _ | y <;> rcases yearto with _ | yt <;> rfl

theorem inRangeInt_iff_spec (year yearto : Option Int) (n : Int) :
    inRangeInt year yearto n = true ↔ specYearPredicate year yearto n := by
  rcases year with _ | y <;> rcases yearto with _ | yt <;>
    simp [inRangeInt, specYearPredicate]

/-! ## Pure characterization of the per-prize selection -/

/-- `p.awardYear` is not a string.  Every record the server itself writes
satisfies this (`simplify_laureate` stores an int or `null`, the mutation
API stores ints); only a hand-edited data file can violate it. -/
def yearOKb (p : Prize) : Bool :=
  match p.awardYear with
  | some (.vstr _) => false
  | _ => true

/-- Every prize of every record has a non-string `awardYear`. -/
def YearsOK (data : List Laureate) : Prop :=
  ∀ l ∈ data, ∀ p ∈ l.nobelPrizes, yearOKb p = true

instance (data : List Laureate) : Decidable (YearsOK data) := by
  unfold YearsOK
  infer_instance

/-- The year part of the selection: the `awardYear is None` guard plus the
range check, on an integer year. -/
def yearSelects (year yearto : Option Int) (p : Prize) : Bool :=
  match p.awardYear with
  | some (.vint n) => inRangeInt year yearto n
  | _ => false

/-- Does `compute_country_counts` count this prize? -/
def ccSelects (dLower : Option String) (year yearto : Option Int) (p : Prize) : Bool :=
  catPass dLower p.category && yearSelects year yearto p

/-- Does `get_laureates` group this prize?  (Unlike the country count it
also skips prizes with a falsy category even when no filter is given.) -/
def glSelects (dLower : Option String) (year yearto : Option Int) (p : Prize) : Bool :=
  !strFalsy p.category && ccSelects dLower year yearto p

theorem ccPrizeStep_pure (dLower : Option String) (year yearto : Option Int)
    (country : String) (counts : List (String × Nat)) (p : Prize)
    (hp : yearOKb p = true) :
    ccPrizeStep dLower year yearto country counts p =
      .ok (if ccSelects dLower year yearto p then bumpCount counts country else counts) := by
  rw [ccPrizeStep]
  by_cases hc : catPass dLower p.category
  · rcases hay : p.awardYear with _ | ay
    · simp [hc, ccSelects, yearSelects, hay]
    · rcases ay with n | s
      · by_cases hr : inRangeInt year yearto n <;>
          simp [hc, hr, ccSelects, yearSelects, hay, inRangeCode_vint]
      · rw [yearOKb, hay] at hp
        simp at hp
  · simp [hc, ccSelects]

/-- The pure form of the per-prize loop body of `get_laureates` (on prizes
with non-string year). -/
def glPrizeStepPure (dLower : Option String) (year yearto : Option Int) (name : String)
    (groups : YearGroups) (p : Prize) : YearGroups :=
  match p.awardYear, p.category with
  | some ay, some c =>
    if glSelects dLower year yearto p then addToYear groups ay c name else groups
  | _, _ => groups

theorem glPrizeStep_pure (dLower : Option String) (year yearto : Option Int)
    (name : String) (groups : YearGroups) (p : Prize) (hp : yearOKb p = true) :
    glPrizeStep dLower year yearto name groups p =
      .ok (glPrizeStepPure dLower year yearto name groups p) := by
  rw [glPrizeStep, glPrizeStepPure]
  rcases hcat : p.category with _ | c
  · rcases hay : p.awardYear with _ | ay <;> simp [hay]
  · by_cases hce : c.isEmpty
    · have hsel : glSelects dLower year yearto p = false := by
        simp [glSelects, strFalsy, hcat, hce]
      rcases hay : p.awardYear with _ | ay <;> simp [hay, hce, hsel]
    · by_cases hd : (match dLower with
                     | some d => !(c.toLower == d)
                     | none => false)
      · have hsel : glSelects dLower year yearto p = false := by
          rcases hdl : dLower with _ | d
          · rw [hdl] at hd; simp at hd
          · rw [hdl] at hd
            simp only [Bool.not_eq_true'] at hd
            simp [glSelects, ccSelects, catPass, hcat, hce, hd]
        rcases hay : p.awardYear with _ | ay <;> simp [hay, hce, hd, hsel]
      · rcases hay : p.awardYear with _ | ay
        · simp [hay, hce, hd]
        · rcases ay with n | s
          · have hsel : glSelects dLower year yearto p = inRangeInt year yearto n := by
              simp only [glSelects, ccSelects, catPass, yearSelects, hcat, hay,
                strFalsy, hce]
              rcases hdl : dLower with _ | d
              · simp
              · rw [hdl] at hd
                simp only [Bool.not_eq_true'] at hd
                simp at hd
                simp [hce, hd]
            by_cases hr : inRangeInt year yearto n <;>
              simp [hay, hce, hd, hr, hsel, inRangeCode_vint]
          · rw [yearOKb, hay] at hp
            simp at hp

theorem except_ok_bind {ε α β : Type} (a : α) (g : α → Except ε β) :
    (Except.ok a : Except ε α) >>= g = g a := rfl

/-- The pure per-laureate step of `compute_country_counts`. -/
def ccLaureateStepPure (dLower : Option String) (year yearto : Option Int)
    (counts : List (String × Nat)) (l : Laureate) : List (String × Nat) :=
  l.nobelPrizes.foldl
    (fun cs p => if ccSelects dLower year yearto p then bumpCount cs (countryOf l) else cs)
    counts

/-- The pure value of `compute_country_counts` on well-formed data. -/
def ccCountPure (data : List Laureate) (dLower : Option String)
    (year yearto : Option Int) : List (String × Nat) :=
  data.foldl (ccLaureateStepPure dLower year yearto) []

theorem foldlM_ccPrizeStep_ok (dLower : Option String) (year yearto : Option Int)
    (country : String) :
    ∀ (ps : List Prize), (∀ p ∈ ps, yearOKb p = true) → ∀ counts,
      ps.foldlM (ccPrizeStep dLower year yearto country) counts =
        .ok (ps.foldl
          (fun cs p => if ccSelects dLower year yearto p then bumpCount cs country else cs)
          counts) := by
  intro ps
  induction ps with
  | nil => intro _ counts; rfl
  | cons p rest ih =>
    intro h counts
    rw [List.foldlM_cons, ccPrizeStep_pure _ _ _ _ _ _ (h p (by simp)), except_ok_bind,
      List.foldl_cons]
    exact ih (fun q hq => h q (by simp [hq])) _

theorem computeCountryCounts_ok (data : List Laureate) (discipline : Option String)
    (year yearto : Option Int) (h : YearsOK data) :
    computeCountryCounts data discipline year yearto =
      .ok (ccCountPure data (discipline.map String.toLower) year yearto) := by
  rw [computeCountryCounts, ccCountPure]
  have H : ∀ (dd : List Laureate), YearsOK dd → ∀ init,
      dd.foldlM
        (fun counts l =>
          l.nobelPrizes.foldlM
            (ccPrizeStep (discipline.map String.toLower) year yearto (countryOf l)) counts)
        init =
        .ok (dd.foldl (ccLaureateStepPure (discipline.map String.toLower) year yearto) init) := by
    intro dd
    induction dd with
    | nil => intro _ init; rfl
    | cons l rest ih =>
      intro hdd init
      rw [List.foldlM_cons,
        foldlM_ccPrizeStep_ok _ _ _ _ l.nobelPrizes (fun p hp => hdd l (by simp) p hp) init,
        except_ok_bind, List.foldl_cons]
      exact ih (fun l' hl' p hp => hdd l' (by simp [hl']) p hp) _
  exact H data h []

/-- The pure grouping pass of `get_laureates` on well-formed data. -/
def glBuildPure (data : List Laureate) (dLower : Option String)
    (year yearto : Option Int) : YearGroups :=
  data.foldl
    (fun gs l =>
      l.nobelPrizes.foldl (fun gs p => glPrizeStepPure dLower year yearto (displayName l) gs p) gs)
    []

theorem foldlM_glPrizeStep_ok (dLower : Option String) (year yearto : Option Int)
    (name : String) :
    ∀ (ps : List Prize), (∀ p ∈ ps, yearOKb p = true) → ∀ gs,
      ps.foldlM (glPrizeStep dLower year yearto name) gs =
        .ok (ps.foldl (fun gs p => glPrizeStepPure dLower year yearto name gs p) gs) := by
  intro ps
  induction ps with
  | nil => intro _ gs; rfl
  | cons p rest ih =>
    intro h gs
    rw [List.foldlM_cons, glPrizeStep_pure _ _ _ _ _ _ (h p (by simp)), except_ok_bind,
      List.foldl_cons]
    exact ih (fun q hq => h q (by simp [hq])) _

theorem buildYearGroups_ok (data : List Laureate) (dLower : Option String)
    (year yearto : Option Int) (h : YearsOK data) :
    buildYearGroups data dLower year yearto =
      .ok (glBuildPure data dLower year yearto) := by
  rw [buildYearGroups, glBuildPure]
  have H : ∀ (dd : List Laureate), YearsOK dd → ∀ init,
      dd.foldlM
        (fun gs l => l.nobelPrizes.foldlM (glPrizeStep dLower year yearto (displayName l)) gs)
        init =
        .ok (dd.foldl
          (fun gs l =>
            l.nobelPrizes.foldl
              (fun gs p => glPrizeStepPure dLower year yearto (displayName l) gs p) gs)
          init) := by
    intro dd
    induction dd with
    | nil => intro _ init; rfl
    | cons l rest ih =>
      intro hdd init
      rw [List.foldlM_cons,
        foldlM_glPrizeStep_ok _ _ _ _ l.nobelPrizes (fun p hp => hdd l (by simp) p hp) init,
        except_ok_bind, List.foldl_cons]
      exact ih (fun l' hl' p hp => hdd l' (by simp [hl']) p hp) _
  exact H data h []

/-! ## Association-list counting lemmas -/

/-- First-match lookup of a count (Python `country_counts.get(k, 0)`). -/
def countVal : List (String × Nat) → String → Nat
  | [], _ => 0
  | q :: rest, k => if q.1 == k then q.2 else countVal rest k

/-- `sum(country_counts.values())`. -/
def sumCounts (counts : List (String × Nat)) : Nat := (counts.map Prod.snd).sum

theorem countVal_map_bump (rest : List (String × Nat)) (k k' : String) (h : k' ≠ k) :
    countVal (rest.map (fun q => if q.1 == k then (q.1, q.2 + 1) else q)) k' =
      countVal rest k' := by
  induction rest with
  | nil => rfl
  | cons q rest ih =>
    simp only [List.map_cons]
    by_cases hq : q.1 == k
    · rw [if_pos hq]
      have hqk : q.1 = k := by simpa using hq
      have hne : (q.1 == k') = false := by
        simp [hqk]
        exact fun hc => h hc.symm
      simp only [countVal]
      rw [if_neg (by simp [hne]), if_neg (by simp [hne])]
      exact ih
    · rw [if_neg hq]
      simp only [countVal]
      by_cases hqk' : q.1 == k'
      · rw [if_pos hqk', if_pos hqk']
      · rw [if_neg hqk', if_neg hqk']
        exact ih

theorem countVal_append_new (counts : List (String × Nat)) (k k' : String) (h : k' ≠ k) :
    countVal (counts ++ [(k, 1)]) k' = countVal counts k' := by
  induction counts with
  | nil =>
    have : (k == k') = false := by
      simp
      exact fun hc => h hc.symm
    simp [countVal, this]
  | cons q rest ih =>
    simp only [List.cons_append, countVal]
    split
    · rfl
    · exact ih

theorem countVal_bump_same (counts : List (String × Nat)) (k : String) :
    countVal (bumpCount counts k) k = countVal counts k + 1 := by
  induction counts with
  | nil => simp [bumpCount, countVal]
  | cons q rest ih =>
    rw [bumpCount]
    by_cases hq : q.1 == k
    · rw [if_pos (by simp [List.any_cons, hq])]
      simp [countVal, hq]
    · by_cases hr : rest.any (fun x => x.1 == k)
      · rw [if_pos (by simp [List.any_cons, hq, hr])]
        have hb : bumpCount rest k =
            rest.map (fun x => if x.1 == k then (x.1, x.2 + 1) else x) := by
          rw [bumpCount, if_pos hr]
        rw [List.map_cons, if_neg hq]
        simp only [countVal]
        rw [if_neg hq, if_neg hq, ← hb, ih]
      · rw [if_neg (by simp [List.any_cons, hq, hr])]
        have hb : bumpCount rest k = rest ++ [(k, 1)] := by
          rw [bumpCount, if_neg hr]
        simp only [List.cons_append, countVal]
        rw [if_neg hq, if_neg hq, List.append_eq, ← hb, ih]

theorem countVal_bump_other (counts : List (String × Nat)) (k k' : String) (h : k' ≠ k) :
    countVal (bumpCount counts k) k' = countVal counts k' := by
  rw [bumpCount]
  split
  · exact countVal_map_bump counts k k' h
  · exact countVal_append_new counts k k' h

theorem bumpCount_keys (counts : List (String × Nat)) (k : String) :
    (bumpCount counts k).map Prod.fst =
      if counts.any (fun q => q.1 == k) then counts.map Prod.fst
      else counts.map Prod.fst ++ [k] := by
  rw [bumpCount]
  split
  · rw [List.map_map]
    apply List.map_congr_left
    intro q _
    by_cases hq : q.1 == k
    · have hqe : q.1 = k := by simpa using hq
      simp [hqe]
    · have hqe : ¬ q.1 = k := by simpa using hq
      simp [hqe]
  · simp

theorem bumpCount_keys_nodup (counts : List (String × Nat)) (k : String)
    (h : (counts.map Prod.fst).Nodup) : ((bumpCount counts k).map Prod.fst).Nodup := by
  rw [bumpCount_keys]
  split
  · exact h
  · rename_i hany
    apply List.Nodup.append h (by simp)
    intro x hx hk
    simp only [List.mem_singleton] at hk
    subst hk
    rw [List.mem_map] at hx
    obtain ⟨a, ha, hak⟩ := hx
    exact hany (List.any_eq_true.mpr ⟨a, ha, by simp [hak]⟩)

theorem sumCounts_bump (counts : List (String × Nat)) (k : String)
    (h : (counts.map Prod.fst).Nodup) :
    sumCounts (bumpCount counts k) = sumCounts counts + 1 := by
  induction counts with
  | nil => rfl
  | cons q rest ih =>
    rw [List.map_cons, List.nodup_cons] at h
    obtain ⟨hq_not, hrest⟩ := h
    rw [bumpCount]
    by_cases hq : q.1 == k
    · rw [if_pos (by simp [List.any_cons, hq])]
      have hqk : q.1 = k := by simpa using hq
      have hmap : rest.map (fun x => if x.1 == k then (x.1, x.2 + 1) else x) = rest := by
        have hid : ∀ x ∈ rest, (if x.1 == k then (x.1, x.2 + 1) else x) = x := by
          intro x hx
          have hxk : ¬ (x.1 == k) = true := by
            intro he
            apply hq_not
            rw [List.mem_map]
            exact ⟨x, hx, by rw [show x.1 = k by simpa using he, hqk]⟩
          rw [if_neg hxk]
        rw [List.map_congr_left hid]
        simp
      rw [List.map_cons, if_pos hq, hmap]
      simp only [sumCounts, List.map_cons, List.sum_cons]
      omega
    · by_cases hr : rest.any (fun x => x.1 == k)
      · rw [if_pos (by simp [List.any_cons, hq, hr])]
        have hb : bumpCount rest k =
            rest.map (fun x => if x.1 == k then (x.1, x.2 + 1) else x) := by
          rw [bumpCount, if_pos hr]
        have hsum := ih hrest
        rw [hb] at hsum
        rw [List.map_cons, if_neg hq]
        simp only [sumCounts, List.map_cons, List.sum_cons] at hsum ⊢
        omega
      · rw [if_neg (by simp [List.any_cons, hq, hr])]
        have hb : bumpCount rest k = rest ++ [(k, 1)] := by
          rw [bumpCount, if_neg hr]
        have hsum := ih hrest
        rw [hb] at hsum
        rw [List.cons_append]
        simp only [sumCounts, List.map_cons, List.sum_cons] at hsum ⊢
        omega

/-- Number of qualifying prizes the aggregation attributes to country `c`:
per prize, using the laureate's stored country with the `"Unknown"`
default. -/
def countQualTo (data : List Laureate) (dLower : Option String)
    (year yearto : Option Int) (c : String) : Nat :=
  (data.map (fun l =>
    if countryOf l == c
    then (l.nobelPrizes.filter (ccSelects dLower year yearto)).length
    else 0)).sum

/-- Total number of prizes `compute_country_counts` counts. -/
def totalQual (data : List Laureate) (dLower : Option String)
    (year yearto : Option Int) : Nat :=
  (data.map (fun l => (l.nobelPrizes.filter (ccSelects dLower year yearto)).length)).sum

theorem countVal_prizeFold (dLower : Option String) (year yearto : Option Int)
    (country c : String) :
    ∀ (ps : List Prize) (counts : List (String × Nat)),
      countVal
        (ps.foldl
          (fun cs p => if ccSelects dLower year yearto p then bumpCount cs country else cs)
          counts) c =
        countVal counts c +
          (if country == c then (ps.filter (ccSelects dLower year yearto)).length else 0) := by
  intro ps
  induction ps with
  | nil => intro counts; simp
  | cons p rest ih =>
    intro counts
    rw [List.foldl_cons, List.filter_cons]
    by_cases hsel : ccSelects dLower year yearto p
    · rw [if_pos hsel, ih]
      by_cases hc : country == c
      · have hceq : country = c := by simpa using hc
        subst hceq
        rw [countVal_bump_same]
        simp [hsel]
        omega
      · have hne : c ≠ country := by
          intro he
          exact hc (by simp [he])
        rw [countVal_bump_other _ _ _ hne]
        simp [hc]
    · rw [if_neg hsel, ih]
      simp [hsel]

theorem countVal_ccCountPure (data : List Laureate) (dLower : Option String)
    (year yearto : Option Int) (c : String) :
    countVal (ccCountPure data dLower year yearto) c =
      countQualTo data dLower year yearto c := by
  rw [ccCountPure, countQualTo]
  have H : ∀ (dd : List Laureate) (init : List (String × Nat)),
      countVal (dd.foldl (ccLaureateStepPure dLower year yearto) init) c =
        countVal init c +
          (dd.map (fun l =>
            if countryOf l == c
            then (l.nobelPrizes.filter (ccSelects dLower year yearto)).length
            else 0)).sum := by
    intro dd
    induction dd with
    | nil => intro init; simp
    | cons l rest ih =>
      intro init
      rw [List.foldl_cons, ih, List.map_cons, List.sum_cons]
      rw [show ccLaureateStepPure dLower year yearto init l =
            l.nobelPrizes.foldl
              (fun cs p =>
                if ccSelects dLower year yearto p then bumpCount cs (countryOf l) else cs)
              init from rfl]
      rw [countVal_prizeFold]
      omega
  rw [H data []]
  simp [countVal]

/-- Keys stay duplicate-free through the per-prize fold. -/
theorem prizeFold_keys_nodup (dLower : Option String) (year yearto : Option Int)
    (country : String) :
    ∀ (ps : List Prize) (counts : List (String × Nat)),
      (counts.map Prod.fst).Nodup →
      ((ps.foldl
          (fun cs p => if ccSelects dLower year yearto p then bumpCount cs country else cs)
          counts).map Prod.fst).Nodup := by
  intro ps
  induction ps with
  | nil => intro counts h; exact h
  | cons p rest ih =>
    intro counts h
    rw [List.foldl_cons]
    apply ih
    by_cases hsel : ccSelects dLower year yearto p
    · rw [if_pos hsel]
      exact bumpCount_keys_nodup counts country h
    · rwa [if_neg hsel]

theorem ccCountPure_keys_nodup (data : List Laureate) (dLower : Option String)
    (year yearto : Option Int) :
    ((ccCountPure data dLower year yearto).map Prod.fst).Nodup := by
  rw [ccCountPure]
  have H : ∀ (dd : List Laureate) (init : List (String × Nat)),
      (init.map Prod.fst).Nodup →
      ((dd.foldl (ccLaureateStepPure dLower year yearto) init).map Prod.fst).Nodup := by
    intro dd
    induction dd with
    | nil => intro init h; exact h
    | cons l rest ih =>
      intro init h
      rw [List.foldl_cons]
      exact ih _ (prizeFold_keys_nodup dLower year yearto (countryOf l) l.nobelPrizes init h)
  exact H data [] (by simp)

theorem sumCounts_prizeFold (dLower : Option String) (year yearto : Option Int)
    (country : String) :
    ∀ (ps : List Prize) (counts : List (String × Nat)),
      (counts.map Prod.fst).Nodup →
      sumCounts
        (ps.foldl
          (fun cs p => if ccSelects dLower year yearto p then bumpCount cs country else cs)
          counts) =
        sumCounts counts + (ps.filter (ccSelects dLower year yearto)).length := by
  intro ps
  induction ps with
  | nil => intro counts _; simp
  | cons p rest ih =>
    intro counts h
    rw [List.foldl_cons, List.filter_cons]
    by_cases hsel : ccSelects dLower year yearto p
    · rw [if_pos hsel, ih _ (bumpCount_keys_nodup counts country h), sumCounts_bump counts country h]
      simp [hsel]
      omega
    · rw [if_neg hsel, ih _ h]
      simp [hsel]

theorem sumCounts_ccCountPure (data : List Laureate) (dLower : Option String)
    (year yearto : Option Int) :
    sumCounts (ccCountPure data dLower year yearto) =
      totalQual data dLower year yearto := by
  rw [ccCountPure, totalQual]
  have H : ∀ (dd : List Laureate) (init : List (String × Nat)),
      (init.map Prod.fst).Nodup →
      sumCounts (dd.foldl (ccLaureateStepPure dLower year yearto) init) =
        sumCounts init +
          (dd.map (fun l => (l.nobelPrizes.filter (ccSelects dLower year yearto)).length)).sum := by
    intro dd
    induction dd with
    | nil => intro init _; simp
    | cons l rest ih =>
      intro init h
      rw [List.foldl_cons]
      rw [show ccLaureateStepPure dLower year yearto init l =
            l.nobelPrizes.foldl
              (fun cs p =>
                if ccSelects dLower year yearto p then bumpCount cs (countryOf l) else cs)
              init from rfl]
      rw [ih _ (prizeFold_keys_nodup dLower year yearto (countryOf l) l.nobelPrizes init h),
        List.map_cons, List.sum_cons,
        sumCounts_prizeFold dLower year yearto (countryOf l) l.nobelPrizes init h]
      omega
  rw [H data [] (by simp)]
  simp [sumCounts]

/-! ## Sorting of the country counts -/

theorem sortCountsDesc_sorted (counts : List (String × Nat)) :
    (sortCountsDesc counts).Pairwise (fun a b => b.2 ≤ a.2) := by
  have h := @List.sorted_mergeSort (String × Nat)
    (fun a b => decide (b.2 ≤ a.2))
    (fun a b c hab hbc => by simp at *; omega)
    (fun a b => by simp; omega) counts
  exact h.imp (fun hab => by simpa using hab)

theorem sortCountsDesc_perm (counts : List (String × Nat)) :
    sortCountsDesc counts ~ counts :=
  List.mergeSort_perm counts _

/-- Stability: among entries with one and the same count, the descending
sort preserves the original (first-encountered) order. -/
theorem sortCountsDesc_filter (counts : List (String × Nat)) (m : Nat) :
    (sortCountsDesc counts).filter (fun x => x.2 == m) =
      counts.filter (fun x => x.2 == m) := by
  have htrans : ∀ a b c : String × Nat,
      decide (b.2 ≤ a.2) = true → decide (c.2 ≤ b.2) = true →
        decide (c.2 ≤ a.2) = true := by
    intro a b c hab hbc
    simp at *
    omega
  have htotal : ∀ a b : String × Nat,
      (decide (b.2 ≤ a.2) || decide (a.2 ≤ b.2)) = true := by
    intro a b
    simp
    omega
  have hsub : counts.filter (fun x => x.2 == m) <+ sortCountsDesc counts := by
    apply List.sublist_mergeSort htrans htotal
    · apply List.pairwise_of_forall_mem_list
      intro a ha b hb
      rw [List.mem_filter] at ha hb
      have ha2 : a.2 = m := by simpa using ha.2
      have hb2 : b.2 = m := by simpa using hb.2
      simp [ha2, hb2]
    · exact List.filter_sublist counts
  have hsub2 : counts.filter (fun x => x.2 == m) <+
      (sortCountsDesc counts).filter (fun x => x.2 == m) := by
    simpa using hsub.filter (fun x => x.2 == m)
  have hlen : ((sortCountsDesc counts).filter (fun x => x.2 == m)).length =
      (counts.filter (fun x => x.2 == m)).length :=
    ((sortCountsDesc_perm counts).filter _).length_eq
  exact (hsub2.eq_of_length hlen.symm).symm

/-! ## Claim C6: count-by-country aggregation -/

/-- What claim C6 asserts of a snapshot and filters: the counts succeed
and attribute each qualifying prize to the laureate's stored country
(`"Unknown"` default built into `countryOf`), and the response list is
that same mapping sorted by count descending, stably for ties. -/
def CountriesClaim (data : List Laureate) (discipline : Option String)
    (year yearto : Option Int) : Prop :=
  computeCountryCounts data discipline year yearto =
      .ok (ccCountPure data (discipline.map String.toLower) year yearto) ∧
  (∀ c : String,
    countVal (ccCountPure data (discipline.map String.toLower) year yearto) c =
      countQualTo data (discipline.map String.toLower) year yearto c) ∧
  getCountries data discipline year yearto =
      .ok (sortCountsDesc (ccCountPure data (discipline.map String.toLower) year yearto)) ∧
  (sortCountsDesc (ccCountPure data (discipline.map String.toLower) year yearto)).Pairwise
      (fun a b => b.2 ≤ a.2) ∧
  (∀ m : Nat,
    (sortCountsDesc (ccCountPure data (discipline.map String.toLower) year yearto)).filter
        (fun x => x.2 == m) =
      (ccCountPure data (discipline.map String.toLower) year yearto).filter
        (fun x => x.2 == m))

/-- Claim C6: on any snapshot whose award years are ints or missing, the
count-by-country aggregation attributes each qualifying prize to the
laureate's stored birth/founding country with the literal `"Unknown"`
default for an absent or empty field, and returns the pairs sorted by
count descending with ties kept stably in first-encountered order. -/
theorem countries_per_prize_sorted_stable (data : List Laureate)
    (discipline : Option String) (year yearto : Option Int) (h : YearsOK data) :
    CountriesClaim data discipline year yearto := by
  refine ⟨computeCountryCounts_ok data discipline year yearto h,
    fun c => countVal_ccCountPure data _ year yearto c,
    ?_, sortCountsDesc_sorted _, fun m => sortCountsDesc_filter _ m⟩
  rw [getCountries, computeCountryCounts_ok data discipline year yearto h]
  rfl

/-- Witness for C6 at a concrete snapshot. -/
theorem countries_per_prize_sorted_stable_witness :
    YearsOK [sampleLaureate] ∧ CountriesClaim [sampleLaureate] none none none :=
  ⟨by decide, countries_per_prize_sorted_stable [sampleLaureate] none none none (by decide)⟩

/-! ## Claim C4: the shared year-range predicate -/

/-- What claim C4 asserts for one pair of year filters: the code's shared
`in_range` logic coincides with the specification's table on integer award
years, both aggregations' per-prize steps select exactly by
`ccSelects` / `glSelects`, and those selections hold precisely when the
non-year filters pass and the spec's year-range predicate holds. -/
def YearRangeClaim (year yearto : Option Int) : Prop :=
  (∀ n : Int, inRangeInt year yearto n = true ↔ specYearPredicate year yearto n) ∧
  (∀ n : Int, inRangeCode year yearto (.vint n) = .ok (inRangeInt year yearto n)) ∧
  (∀ (dLower : Option String) (country : String) (counts : List (String × Nat)) (p : Prize),
    yearOKb p = true →
    ccPrizeStep dLower year yearto country counts p =
      .ok (if ccSelects dLower year yearto p then bumpCount counts country else counts)) ∧
  (∀ (dLower : Option String) (name : String) (groups : YearGroups) (p : Prize),
    yearOKb p = true →
    glPrizeStep dLower year yearto name groups p =
      .ok (glPrizeStepPure dLower year yearto name groups p)) ∧
  (∀ (dLower : Option String) (p : Prize) (n : Int), p.awardYear = some (.vint n) →
    ((ccSelects dLower year yearto p = true ↔
      (catPass dLower p.category = true ∧ specYearPredicate year yearto n)) ∧
     (glSelects dLower year yearto p = true ↔
      (strFalsy p.category = false ∧ catPass dLower p.category = true ∧
        specYearPredicate year yearto n))))

/-- Claim C4: for every combination of optional `year` / `yearTo` filters,
both aggregation operations select a prize with an integer award year
exactly per the specification's shared year-range table (both bounds
inclusive; equality when only `year` is set; upper bound only when only
`yearTo` is set; everything when neither is set). -/
theorem year_range_table (year yearto : Option Int) : YearRangeClaim year yearto := by
  refine ⟨inRangeInt_iff_spec year yearto, inRangeCode_vint year yearto,
    fun dLower country counts p hp => ccPrizeStep_pure dLower year yearto country counts p hp,
    fun dLower name groups p hp => glPrizeStep_pure dLower year yearto name groups p hp,
    ?_⟩
  intro dLower p n hay
  constructor
  · rw [ccSelects, yearSelects, hay]
    simp [inRangeInt_iff_spec]
  · rw [glSelects, ccSelects, yearSelects, hay]
    simp only [Bool.and_eq_true, Bool.not_eq_true']
    rw [inRangeInt_iff_spec]

/-- Witness for C4 at the filters `year=1970, yearto=1980` (and the
boundary evaluations the spec lists, at both filter shapes). -/
theorem year_range_table_witness :
    YearRangeClaim (some 1970) (some 1980) ∧
    yearSelects (some 1970) (some 1980)
      ⟨some (.vint 1970), some "Physics", some "m"⟩ = true ∧
    yearSelects (some 1970) (some 1980)
      ⟨some (.vint 1980), some "Physics", some "m"⟩ = true ∧
    yearSelects (some 1970) (some 1980)
      ⟨some (.vint 1969), some "Physics", some "m"⟩ = false ∧
    yearSelects (some 1970) (some 1980)
      ⟨some (.vint 1981), some "Physics", some "m"⟩ = false ∧
    yearSelects (some 1975) (some 1975)
      ⟨some (.vint 1975), some "Physics", some "m"⟩ = true ∧
    yearSelects (some 1975) (some 1975)
      ⟨some (.vint 1974), some "Physics", some "m"⟩ = false :=
  ⟨year_range_table (some 1970) (some 1980), by decide, by decide, by decide,
    by decide, by decide, by decide⟩

/-! ## Claim C7: malformed award years -/

/-- A stored laureate whose only prize carries a string `awardYear` (as a
hand-edited data file can produce — the store loads the file as-is). -/
def strYearLaureate : Laureate :=
  { id := some (.vstr "7"), fullName := some "Bad Year", gender := some "unknown",
    birthDate := none, birthCity := none, birthCountry := some "Norway",
    nobelPrizes := [{ awardYear := some (.vstr "MCMXCIX"), category := some "Peace",
                      motivation := some "m" }] }

/-- Claim C7 counterexample: a prize whose `awardYear` is a non-numeric
string is *not* excluded from every aggregation result, and the
aggregations do not always avoid raising: with no year filter the country
count includes it (and the year grouping emits it under its raw string
key), while a `yearto` or `year`+`yearto` bound makes the comparison raise
a `TypeError` (modelled as `.error`).  Only `None` award years are
skipped. -/
theorem malformed_year_not_always_excluded :
    (computeCountryCounts [strYearLaureate] none none none = .ok [("Norway", 1)]) ∧
    (computeCountryCounts [strYearLaureate] none none (some 1980) = .error ()) ∧
    (getLaureates [strYearLaureate] none (some 1970) (some 1980) = .error ()) ∧
    (getLaureates [strYearLaureate] none none none =
      .ok { total_count := 1,
            results := [{ awardYear := .vstr "MCMXCIX",
                          disciplines := [{ discipline := "Peace", count := 1,
                                            laureates := ["Bad Year"] }] }] }) := by
  refine ⟨by decide, by decide, ?_, ?_⟩
  · have h1 : buildYearGroups [strYearLaureate] none (some 1970) (some 1980) =
        .error () := by decide
    rw [getLaureates]
    simp only [Option.map_none']
    rw [h1]
  · have h1 : buildYearGroups [strYearLaureate] none none none =
        .ok [(.vstr "MCMXCIX", [("Peace", ["Bad Year"])])] := by decide
    rw [getLaureates]
    simp only [Option.map_none']
    rw [h1]
    have h2 : sortedPyKeys [PyVal.vstr "MCMXCIX"] = .ok [PyVal.vstr "MCMXCIX"] := by
      rw [sortedPyKeys, if_pos (by decide), List.mergeSort_singleton]
    simp only [List.map_cons, List.map_nil]
    rw [h2]
    simp [buildResults, buildDiscEntries, lookupYear, lookupCat,
      List.mergeSort_singleton]

/-- Claim C7 (amended): a prize whose `awardYear` is missing (`None`) is
excluded from both aggregations and never causes an error, for every
filter combination — and on any snapshot free of string award years both
aggregations always succeed.  (The unparseable-string case is *not*
handled: see the counterexample.) -/
theorem none_year_prizes_skipped (data : List Laureate) (discipline : Option String)
    (year yearto : Option Int) (h : YearsOK data) :
    (computeCountryCounts data discipline year yearto =
      .ok (ccCountPure data (discipline.map String.toLower) year yearto)) ∧
    (buildYearGroups data (discipline.map String.toLower) year yearto =
      .ok (glBuildPure data (discipline.map String.toLower) year yearto)) ∧
    (∀ p : Prize, p.awardYear = none →
      (∀ dLower, ccSelects dLower year yearto p = false ∧
        glSelects dLower year yearto p = false) ∧
      (∀ dLower name groups, glPrizeStepPure dLower year yearto name groups p = groups) ∧
      (∀ dLower country counts,
        ccPrizeStep dLower year yearto country counts p = .ok counts)) := by
  refine ⟨computeCountryCounts_ok data discipline year yearto h,
    buildYearGroups_ok data _ year yearto h, ?_⟩
  intro p hp
  refine ⟨fun dLower => ?_, fun dLower name groups => ?_, fun dLower country counts => ?_⟩
  · constructor
    · simp [ccSelects, yearSelects, hp]
    · simp [glSelects, ccSelects, yearSelects, hp]
  · rw [glPrizeStepPure, hp]
  · rw [ccPrizeStep]
    by_cases hc : catPass dLower p.category
    · simp [hc, hp]
    · simp [hc]

/-- Witness for the amended C7 at a concrete snapshot containing a
`None`-year prize. -/
def noneYearLaureate : Laureate :=
  { id := some (.vstr "8"), fullName := some "No Year", gender := some "unknown",
    birthDate := none, birthCity := none, birthCountry := some "Chile",
    nobelPrizes := [{ awardYear := none, category := some "Peace",
                      motivation := some "m" }] }

theorem none_year_prizes_skipped_witness :
    YearsOK [noneYearLaureate] ∧
    ((computeCountryCounts [noneYearLaureate] none none none =
      .ok (ccCountPure [noneYearLaureate] none none none)) ∧
    (buildYearGroups [noneYearLaureate] none none none =
      .ok (glBuildPure [noneYearLaureate] none none none)) ∧
    (∀ p : Prize, p.awardYear = none →
      (∀ dLower, ccSelects dLower none none p = false ∧
        glSelects dLower none none p = false) ∧
      (∀ dLower name groups, glPrizeStepPure dLower none none name groups p = groups) ∧
      (∀ dLower country counts,
        ccPrizeStep dLower none none country counts p = .ok counts))) ∧
    ccCountPure [noneYearLaureate] none none none = [] :=
  ⟨by decide, none_year_prizes_skipped [noneYearLaureate] none none none (by decide),
    by decide⟩

/-! ## Group-dictionary lemmas for `get_laureates` -/

theorem lookupCat_eq_nil_of_not_any (cats : CatGroups) (c : String)
    (h : cats.any (fun q => q.1 == c) = false) : lookupCat cats c = [] := by
  induction cats with
  | nil => rfl
  | cons q rest ih =>
    rw [List.any_cons] at h
    rw [Bool.or_eq_false_iff] at h
    rw [lookupCat, if_neg (by simp [h.1]), ih h.2]

theorem lookupCat_add_same (cats : CatGroups) (c n : String) :
    lookupCat (addToCat cats c n) c = lookupCat cats c ++ [n] := by
  induction cats with
  | nil => simp [addToCat, lookupCat]
  | cons q rest ih =>
    rw [addToCat]
    by_cases hq : q.1 == c
    · rw [if_pos (by simp [List.any_cons, hq])]
      rw [List.map_cons, if_pos hq]
      simp [lookupCat, hq]
    · by_cases hr : rest.any (fun x => x.1 == c)
      · rw [if_pos (by simp [List.any_cons, hq, hr])]
        rw [List.map_cons, if_neg hq]
        have hb : addToCat rest c n =
            rest.map (fun x => if x.1 == c then (x.1, x.2 ++ [n]) else x) := by
          rw [addToCat, if_pos hr]
        simp only [lookupCat]
        rw [if_neg hq, if_neg hq, ← hb, ih]
      · rw [if_neg (by simp [List.any_cons, hq, hr])]
        have hb : addToCat rest c n = rest ++ [(c, [n])] := by
          rw [addToCat, if_neg hr]
        simp only [List.cons_append, lookupCat]
        rw [if_neg hq, if_neg hq, List.append_eq, ← hb, ih]

theorem lookupCat_map_other (rest : CatGroups) (c c' n : String) (h : c' ≠ c) :
    lookupCat (rest.map (fun q => if q.1 == c then (q.1, q.2 ++ [n]) else q)) c' =
      lookupCat rest c' := by
  induction rest with
  | nil => rfl
  | cons q rest ih =>
    simp only [List.map_cons]
    by_cases hq : q.1 == c
    · rw [if_pos hq]
      have hqc : q.1 = c := by simpa using hq
      have hne : (q.1 == c') = false := by
        simp [hqc]
        exact fun hc => h hc.symm
      simp only [lookupCat]
      rw [if_neg (by simp [hne]), if_neg (by simp [hne])]
      exact ih
    · rw [if_neg hq]
      simp only [lookupCat]
      by_cases hq' : q.1 == c'
      · rw [if_pos hq', if_pos hq']
      · rw [if_neg hq', if_neg hq']
        exact ih

theorem lookupCat_append_other (cats : CatGroups) (c c' n : String) (h : c' ≠ c) :
    lookupCat (cats ++ [(c, [n])]) c' = lookupCat cats c' := by
  induction cats with
  | nil =>
    have : (c == c') = false := by
      simp
      exact fun hc => h hc.symm
    simp [lookupCat, this]
  | cons q rest ih =>
    simp only [List.cons_append, lookupCat]
    split
    · rfl
    · exact ih

theorem lookupCat_add_other (cats : CatGroups) (c c' n : String) (h : c' ≠ c) :
    lookupCat (addToCat cats c n) c' = lookupCat cats c' := by
  rw [addToCat]
  split
  · exact lookupCat_map_other cats c c' n h
  · exact lookupCat_append_other cats c c' n h

theorem lookupYear_eq_nil_of_not_any (groups : YearGroups) (y : PyVal)
    (h : groups.any (fun g => g.1 == y) = false) : lookupYear groups y = [] := by
  induction groups with
  | nil => rfl
  | cons g rest ih =>
    rw [List.any_cons] at h
    rw [Bool.or_eq_false_iff] at h
    rw [lookupYear, if_neg (by simp [h.1]), ih h.2]

theorem lookupYear_add_same (groups : YearGroups) (y : PyVal) (c n : String) :
    lookupYear (addToYear groups y c n) y = addToCat (lookupYear groups y) c n := by
  induction groups with
  | nil => simp [addToYear, lookupYear, addToCat]
  | cons g rest ih =>
    rw [addToYear]
    by_cases hg : g.1 == y
    · rw [if_pos (by simp [List.any_cons, hg])]
      rw [List.map_cons, if_pos hg]
      simp [lookupYear, hg]
    · by_cases hr : rest.any (fun x => x.1 == y)
      · rw [if_pos (by simp [List.any_cons, hg, hr])]
        rw [List.map_cons, if_neg hg]
        have hb : addToYear rest y c n =
            rest.map (fun x => if x.1 == y then (x.1, addToCat x.2 c n) else x) := by
          rw [addToYear, if_pos hr]
        simp only [lookupYear]
        rw [if_neg hg, if_neg hg, ← hb, ih]
      · rw [if_neg (by simp [List.any_cons, hg, hr])]
        have hb : addToYear rest y c n = rest ++ [(y, [(c, [n])])] := by
          rw [addToYear, if_neg hr]
        simp only [List.cons_append, lookupYear]
        rw [if_neg hg, if_neg hg, List.append_eq, ← hb, ih]

theorem lookupYear_map_other (rest : YearGroups) (y y' : PyVal) (c n : String)
    (h : y' ≠ y) :
    lookupYear (rest.map (fun g => if g.1 == y then (g.1, addToCat g.2 c n) else g)) y' =
      lookupYear rest y' := by
  induction rest with
  | nil => rfl
  | cons g rest ih =>
    simp only [List.map_cons]
    by_cases hg : g.1 == y
    · rw [if_pos hg]
      have hgy : g.1 = y := by simpa using hg
      have hne : (g.1 == y') = false := by
        simp [hgy]
        exact fun hc => h hc.symm
      simp only [lookupYear]
      rw [if_neg (by simp [hne]), if_neg (by simp [hne])]
      exact ih
    · rw [if_neg hg]
      simp only [lookupYear]
      by_cases hg' : g.1 == y'
      · rw [if_pos hg', if_pos hg']
      · rw [if_neg hg', if_neg hg']
        exact ih

theorem lookupYear_append_other (groups : YearGroups) (y y' : PyVal) (c n : String)
    (h : y' ≠ y) :
    lookupYear (groups ++ [(y, [(c, [n])])]) y' = lookupYear groups y' := by
  induction groups with
  | nil =>
    have : (y == y') = false := by
      simp
      exact fun hc => h hc.symm
    simp [lookupYear, this]
  | cons g rest ih =>
    simp only [List.cons_append, lookupYear]
    split
    · rfl
    · exact ih

theorem lookupYear_add_other (groups : YearGroups) (y y' : PyVal) (c n : String)
    (h : y' ≠ y) :
    lookupYear (addToYear groups y c n) y' = lookupYear groups y' := by
  rw [addToYear]
  split
  · exact lookupYear_map_other groups y y' c n h
  · exact lookupYear_append_other groups y y' c n h

theorem addToCat_keys (cats : CatGroups) (c n : String) :
    (addToCat cats c n).map Prod.fst =
      if cats.any (fun q => q.1 == c) then cats.map Prod.fst
      else cats.map Prod.fst ++ [c] := by
  rw [addToCat]
  split
  · rw [List.map_map]
    apply List.map_congr_left
    intro q _
    by_cases hq : q.1 == c
    · have hqe : q.1 = c := by simpa using hq
      simp [hqe]
    · have hqe : ¬ q.1 = c := by simpa using hq
      simp [hqe]
  · simp

theorem addToCat_keys_nodup (cats : CatGroups) (c n : String)
    (h : (cats.map Prod.fst).Nodup) : ((addToCat cats c n).map Prod.fst).Nodup := by
  rw [addToCat_keys]
  split
  · exact h
  · rename_i hany
    apply List.Nodup.append h (by simp)
    intro x hx hk
    simp only [List.mem_singleton] at hk
    subst hk
    rw [List.mem_map] at hx
    obtain ⟨a, ha, hak⟩ := hx
    exact hany (List.any_eq_true.mpr ⟨a, ha, by simp [hak]⟩)

theorem addToYear_keys (groups : YearGroups) (y : PyVal) (c n : String) :
    (addToYear groups y c n).map Prod.fst =
      if groups.any (fun g => g.1 == y) then groups.map Prod.fst
      else groups.map Prod.fst ++ [y] := by
  rw [addToYear]
  split
  · rw [List.map_map]
    apply List.map_congr_left
    intro g _
    by_cases hg : g.1 == y
    · have hge : g.1 = y := by simpa using hg
      simp [hge]
    · have hge : ¬ g.1 = y := by simpa using hg
      simp [hge]
  · simp

theorem addToYear_keys_nodup (groups : YearGroups) (y : PyVal) (c n : String)
    (h : (groups.map Prod.fst).Nodup) : ((addToYear groups y c n).map Prod.fst).Nodup := by
  rw [addToYear_keys]
  split
  · exact h
  · rename_i hany
    apply List.Nodup.append h (by simp)
    intro x hx hk
    simp only [List.mem_singleton] at hk
    subst hk
    rw [List.mem_map] at hx
    obtain ⟨a, ha, hak⟩ := hx
    exact hany (List.any_eq_true.mpr ⟨a, ha, by simp [hak]⟩)

/-- The dict-of-dicts invariant: outer year keys are distinct, and so are
the category keys inside every year entry. -/
def GroupsWF (groups : YearGroups) : Prop :=
  (groups.map Prod.fst).Nodup ∧ ∀ g ∈ groups, (g.2.map Prod.fst).Nodup

theorem addToYear_wf (groups : YearGroups) (y : PyVal) (c n : String)
    (h : GroupsWF groups) : GroupsWF (addToYear groups y c n) := by
  obtain ⟨h1, h2⟩ := h
  refine ⟨addToYear_keys_nodup groups y c n h1, ?_⟩
  intro g hg
  rw [addToYear] at hg
  split at hg
  · rw [List.mem_map] at hg
    obtain ⟨g₀, hg₀, rfl⟩ := hg
    by_cases hgy : g₀.1 == y
    · rw [if_pos hgy]
      exact addToCat_keys_nodup g₀.2 c n (h2 g₀ hg₀)
    · rw [if_neg hgy]
      exact h2 g₀ hg₀
  · rcases List.mem_append.mp hg with hg' | hg'
    · exact h2 g hg'
    · simp only [List.mem_singleton] at hg'
      subst hg'
      simp

/-- A grouped prize always carries an integer award year and a non-empty
category. -/
theorem glSelects_inv {dLower : Option String} {year yearto : Option Int} {p : Prize}
    (h : glSelects dLower year yearto p = true) :
    ∃ n c, p.awardYear = some (.vint n) ∧ p.category = some c ∧ c.isEmpty = false := by
  rw [glSelects, ccSelects, yearSelects] at h
  simp only [Bool.and_eq_true] at h
  obtain ⟨hfal, _, hyear⟩ := h
  rcases hay : p.awardYear with _ | ay
  · rw [hay] at hyear
    simp at hyear
  · rcases ay with n | s
    · rcases hc : p.category with _ | c
      · rw [hc] at hfal
        simp [strFalsy] at hfal
      · refine ⟨n, c, rfl, rfl, ?_⟩
        rw [hc] at hfal
        simpa [strFalsy] using hfal
    · rw [hay] at hyear
      simp at hyear

/-- The names a prize contributes to group `(y, c)`: whether it is
selected and keyed there. -/
def groupedHere (dLower : Option String) (year yearto : Option Int)
    (y : PyVal) (c : String) (p : Prize) : Bool :=
  glSelects dLower year yearto p && (p.awardYear == some y) && (p.category == some c)

/-- The names of group `(y, c)`, read off the collection in encounter
order: one entry per qualifying prize keyed `(y, c)`, carrying the
laureate's display name. -/
def matchingNames (data : List Laureate) (dLower : Option String)
    (year yearto : Option Int) (y : PyVal) (c : String) : List String :=
  data.flatMap (fun l =>
    (l.nobelPrizes.filter (groupedHere dLower year yearto y c)).map
      (fun _ => displayName l))

theorem glStepPure_lookup (dLower : Option String) (year yearto : Option Int)
    (name : String) (y : PyVal) (c : String) (gs : YearGroups) (p : Prize) :
    lookupCat (lookupYear (glPrizeStepPure dLower year yearto name gs p) y) c =
      lookupCat (lookupYear gs y) c ++
        (if groupedHere dLower year yearto y c p then [name] else []) := by
  rw [glPrizeStepPure, groupedHere]
  rcases hay : p.awardYear with _ | ay
  · simp [hay]
  · rcases hcat : p.category with _ | c₀
    · simp [hay, hcat]
    · dsimp only
      by_cases hsel : glSelects dLower year yearto p
      · rw [if_pos hsel]
        by_cases hy : ay = y
        · subst hy
          by_cases hc : c₀ = c
          · subst hc
            rw [lookupYear_add_same, lookupCat_add_same]
            simp [hsel]
          · rw [lookupYear_add_same,
              lookupCat_add_other _ _ _ _ (fun he => hc he.symm)]
            simp [hsel, hc]
        · rw [lookupYear_add_other _ _ _ _ _ (fun he => hy he.symm)]
          simp [hsel, hy]
      · rw [if_neg hsel]
        simp [hsel]

theorem glPrizeFold_lookup (dLower : Option String) (year yearto : Option Int)
    (name : String) (y : PyVal) (c : String) :
    ∀ (ps : List Prize) (gs : YearGroups),
      lookupCat
        (lookupYear
          (ps.foldl (fun gs p => glPrizeStepPure dLower year yearto name gs p) gs) y) c =
        lookupCat (lookupYear gs y) c ++
          (ps.filter (groupedHere dLower year yearto y c)).map (fun _ => name) := by
  intro ps
  induction ps with
  | nil => intro gs; simp
  | cons p rest ih =>
    intro gs
    rw [List.foldl_cons, ih, glStepPure_lookup, List.filter_cons]
    by_cases hp : groupedHere dLower year yearto y c p
    · simp [hp]
    · simp [hp]

theorem glBuildPure_lookup (data : List Laureate) (dLower : Option String)
    (year yearto : Option Int) (y : PyVal) (c : String) :
    lookupCat (lookupYear (glBuildPure data dLower year yearto) y) c =
      matchingNames data dLower year yearto y c := by
  rw [glBuildPure, matchingNames]
  have H : ∀ (dd : List Laureate) (init : YearGroups),
      lookupCat
        (lookupYear
          (dd.foldl
            (fun gs l =>
              l.nobelPrizes.foldl
                (fun gs p => glPrizeStepPure dLower year yearto (displayName l) gs p) gs)
            init) y) c =
        lookupCat (lookupYear init y) c ++
          dd.flatMap (fun l =>
            (l.nobelPrizes.filter (groupedHere dLower year yearto y c)).map
              (fun _ => displayName l)) := by
    intro dd
    induction dd with
    | nil => intro init; simp
    | cons l rest ih =>
      intro init
      rw [List.foldl_cons, ih, glPrizeFold_lookup, List.flatMap_cons, List.append_assoc]
  rw [H data []]
  simp [lookupYear, lookupCat]

theorem glStepPure_wf (dLower : Option String) (year yearto : Option Int)
    (name : String) (gs : YearGroups) (p : Prize) (h : GroupsWF gs) :
    GroupsWF (glPrizeStepPure dLower year yearto name gs p) := by
  rw [glPrizeStepPure]
  rcases p.awardYear with _ | ay
  · exact h
  · rcases p.category with _ | c
    · exact h
    · dsimp only
      by_cases hsel : glSelects dLower year yearto p
      · rw [if_pos hsel]
        exact addToYear_wf _ _ _ _ h
      · rw [if_neg hsel]
        exact h

theorem glStepPure_keys_vint (dLower : Option String) (year yearto : Option Int)
    (name : String) (gs : YearGroups) (p : Prize)
    (h : ∀ k ∈ gs.map Prod.fst, isVint k = true) :
    ∀ k ∈ (glPrizeStepPure dLower year yearto name gs p).map Prod.fst,
      isVint k = true := by
  intro k hk
  rw [glPrizeStepPure] at hk
  rcases hay : p.awardYear with _ | ay
  · rw [hay] at hk
    exact h k hk
  · rw [hay] at hk
    rcases hcat : p.category with _ | c
    · rw [hcat] at hk
      exact h k hk
    · rw [hcat] at hk
      dsimp only at hk
      by_cases hsel : glSelects dLower year yearto p
      · rw [if_pos hsel, addToYear_keys] at hk
        obtain ⟨n, c', hay', _, _⟩ := glSelects_inv hsel
        have hayn : ay = .vint n := by
          rw [hay] at hay'
          exact Option.some.inj hay'
        split at hk
        · exact h k hk
        · rcases List.mem_append.mp hk with hk' | hk'
          · exact h k hk'
          · simp only [List.mem_singleton] at hk'
            subst hk'
            rw [hayn]
            rfl
      · rw [if_neg hsel] at hk
        exact h k hk

theorem glBuildPure_wf (data : List Laureate) (dLower : Option String)
    (year yearto : Option Int) :
    GroupsWF (glBuildPure data dLower year yearto) ∧
    (∀ k ∈ (glBuildPure data dLower year yearto).map Prod.fst, isVint k = true) := by
  rw [glBuildPure]
  have H : ∀ (dd : List Laureate) (init : YearGroups),
      GroupsWF init → (∀ k ∈ init.map Prod.fst, isVint k = true) →
      GroupsWF
        (dd.foldl
          (fun gs l =>
            l.nobelPrizes.foldl
              (fun gs p => glPrizeStepPure dLower year yearto (displayName l) gs p) gs)
          init) ∧
      (∀ k ∈ (dd.foldl
          (fun gs l =>
            l.nobelPrizes.foldl
              (fun gs p => glPrizeStepPure dLower year yearto (displayName l) gs p) gs)
          init).map Prod.fst, isVint k = true) := by
    intro dd
    induction dd with
    | nil => intro init h1 h2; exact ⟨h1, h2⟩
    | cons l rest ih =>
      intro init h1 h2
      rw [List.foldl_cons]
      have hInner : ∀ (ps : List Prize) (gs : YearGroups),
          GroupsWF gs → (∀ k ∈ gs.map Prod.fst, isVint k = true) →
          GroupsWF (ps.foldl
            (fun gs p => glPrizeStepPure dLower year yearto (displayName l) gs p) gs) ∧
          (∀ k ∈ (ps.foldl
            (fun gs p => glPrizeStepPure dLower year yearto (displayName l) gs p)
              gs).map Prod.fst, isVint k = true) := by
        intro ps
        induction ps with
        | nil => intro gs hg1 hg2; exact ⟨hg1, hg2⟩
        | cons p rest2 ih2 =>
          intro gs hg1 hg2
          rw [List.foldl_cons]
          exact ih2 _ (glStepPure_wf _ _ _ _ _ _ hg1)
            (glStepPure_keys_vint _ _ _ _ _ _ hg2)
      obtain ⟨hw, hv⟩ := hInner l.nobelPrizes init h1 h2
      exact ih _ hw hv
  exact H data [] ⟨by simp, by simp⟩ (by simp)

/-! ## Sorting of the year and category keys -/

theorem pyKeyLe_trans :
    ∀ a b c : PyVal, pyKeyLe a b = true → pyKeyLe b c = true → pyKeyLe a c = true := by
  intro a b c hab hbc
  rcases a with m | s <;> rcases b with m' | s' <;> rcases c with m'' | s''
  · simp [pyKeyLe] at *
    omega
  · rfl
  · simp [pyKeyLe] at hbc
  · rfl
  · simp [pyKeyLe] at hab
  · simp [pyKeyLe] at hab
  · simp [pyKeyLe] at hbc
  · show decide (s ≤ s'') = true
    rw [decide_eq_true_eq]
    have h1 : s ≤ s' := by
      have := hab
      rwa [show pyKeyLe (.vstr s) (.vstr s') = decide (s ≤ s') from rfl,
        decide_eq_true_eq] at this
    have h2 : s' ≤ s'' := by
      have := hbc
      rwa [show pyKeyLe (.vstr s') (.vstr s'') = decide (s' ≤ s'') from rfl,
        decide_eq_true_eq] at this
    exact le_trans h1 h2

theorem pyKeyLe_total :
    ∀ a b : PyVal, (pyKeyLe a b || pyKeyLe b a) = true := by
  intro a b
  rcases a with m | s <;> rcases b with m' | s'
  · simp [pyKeyLe]
    omega
  · rfl
  · simp [pyKeyLe]
  · show (decide (s ≤ s') || decide (s' ≤ s)) = true
    rw [Bool.or_eq_true, decide_eq_true_eq, decide_eq_true_eq]
    exact le_total s s'

/-- Strictly-ascending-integers order on the year keys of the response
(false unless both keys are `vint`). -/
def keyIntLt : PyVal → PyVal → Prop
  | .vint m, .vint n => m < n
  | _, _ => False

theorem mergeSort_keys_strict (ks : List PyVal) (hnd : ks.Nodup)
    (hv : ∀ k ∈ ks, isVint k = true) :
    (ks.mergeSort pyKeyLe).Pairwise keyIntLt := by
  have hs := List.sorted_mergeSort pyKeyLe_trans pyKeyLe_total ks
  have hperm := List.mergeSort_perm ks pyKeyLe
  have hnd' : (ks.mergeSort pyKeyLe).Nodup := hperm.nodup_iff.mpr hnd
  have hv' : ∀ k ∈ ks.mergeSort pyKeyLe, isVint k = true := by
    intro k hk
    exact hv k (List.mem_mergeSort.mp hk)
  have hand := hs.and hnd'
  refine hand.imp_of_mem ?_
  intro a b ha hb hab
  obtain ⟨hle, hne⟩ := hab
  have hva := hv' a ha
  have hvb := hv' b hb
  rcases a with m | s
  · rcases b with m' | s'
    · simp only [pyKeyLe] at hle
      have hmm : m ≠ m' := fun he => hne (by rw [he])
      simp only [keyIntLt]
      simp at hle
      omega
    · simp [isVint] at hvb
  · simp [isVint] at hva

theorem sortedPyKeys_ok_of_vint (ks : List PyVal) (h : ∀ k ∈ ks, isVint k = true) :
    sortedPyKeys ks = .ok (ks.mergeSort pyKeyLe) := by
  rw [sortedPyKeys, if_pos]
  rw [Bool.or_eq_true]
  left
  rw [List.all_eq_true]
  exact h

theorem strLe_trans :
    ∀ a b c : String, strLe a b = true → strLe b c = true → strLe a c = true := by
  intro a b c hab hbc
  rw [strLe, decide_eq_true_eq] at *
  exact le_trans hab hbc

theorem strLe_total : ∀ a b : String, (strLe a b || strLe b a) = true := by
  intro a b
  rw [strLe, strLe, Bool.or_eq_true, decide_eq_true_eq, decide_eq_true_eq]
  exact le_total a b

theorem buildDiscEntries_sorted (cats : CatGroups) :
    ((buildDiscEntries cats).map DiscEntry.discipline).Pairwise (fun a b => a ≤ b) := by
  rw [buildDiscEntries, List.map_map]
  have hmap : (DiscEntry.discipline ∘
      (fun c => ({ discipline := c, count := (lookupCat cats c).length,
                   laureates := lookupCat cats c } : DiscEntry))) = fun c => c := rfl
  rw [hmap, List.map_id']
  have hs := List.sorted_mergeSort strLe_trans strLe_total (cats.map Prod.fst)
  refine hs.imp ?_
  intro a b hab
  rwa [strLe, decide_eq_true_eq] at hab

/-! ## Claim C5: group-by-year-and-category response shape -/

/-- The `results` list `get_laureates` produces on well-formed data. -/
def glResults (data : List Laureate) (dLower : Option String)
    (year yearto : Option Int) : List YearEntry :=
  buildResults (glBuildPure data dLower year yearto)
    (((glBuildPure data dLower year yearto).map Prod.fst).mergeSort pyKeyLe)

theorem getLaureates_ok (data : List Laureate) (discipline : Option String)
    (year yearto : Option Int) (h : YearsOK data) :
    getLaureates data discipline year yearto =
      .ok { total_count :=
              ((glResults data (discipline.map String.toLower) year yearto).map
                (fun ye => (ye.disciplines.map DiscEntry.count).sum)).sum,
            results := glResults data (discipline.map String.toLower) year yearto } := by
  rw [getLaureates, buildYearGroups_ok data _ year yearto h]
  dsimp only
  rw [sortedPyKeys_ok_of_vint _ (glBuildPure_wf data _ year yearto).2]
  rfl

/-- What claim C5 asserts of a snapshot and filters. -/
def LaureatesClaim (data : List Laureate) (discipline : Option String)
    (year yearto : Option Int) : Prop :=
  ∃ resp, getLaureates data discipline year yearto = .ok resp ∧
    (resp.results.map YearEntry.awardYear).Pairwise keyIntLt ∧
    (∀ ye ∈ resp.results,
      (ye.disciplines.map DiscEntry.discipline).Pairwise (fun a b => a ≤ b)) ∧
    (∀ ye ∈ resp.results, ∀ de ∈ ye.disciplines,
      de.laureates =
        matchingNames data (discipline.map String.toLower) year yearto
          ye.awardYear de.discipline ∧
      de.count = de.laureates.length)

/-- Claim C5: on any snapshot whose award years are ints or missing, the
group-by-year-and-category aggregation lists years in strictly ascending
numeric order, categories within a year in lexicographic order, names of
each group in collection-encounter order (one entry per qualifying prize,
no deduplication), and each group's count as the length of its names
list. -/
theorem laureates_grouping (data : List Laureate) (discipline : Option String)
    (year yearto : Option Int) (h : YearsOK data) :
    LaureatesClaim data discipline year yearto := by
  refine ⟨_, getLaureates_ok data discipline year yearto h, ?_, ?_, ?_⟩
  · show ((glResults data (discipline.map String.toLower) year yearto).map
      YearEntry.awardYear).Pairwise keyIntLt
    rw [glResults, buildResults, List.map_map]
    have hmap : (YearEntry.awardYear ∘ fun y =>
        ({ awardYear := y,
           disciplines :=
             buildDiscEntries
               (lookupYear (glBuildPure data (discipline.map String.toLower) year yearto) y) } :
          YearEntry)) = fun y => y := rfl
    rw [hmap, List.map_id']
    exact mergeSort_keys_strict _ (glBuildPure_wf data _ year yearto).1.1
      (glBuildPure_wf data _ year yearto).2
  · intro ye hye
    rw [glResults, buildResults, List.mem_map] at hye
    obtain ⟨y, _, rfl⟩ := hye
    exact buildDiscEntries_sorted _
  · intro ye hye de hde
    rw [glResults, buildResults, List.mem_map] at hye
    obtain ⟨y, _, rfl⟩ := hye
    rw [buildDiscEntries, List.mem_map] at hde
    obtain ⟨c, _, rfl⟩ := hde
    refine ⟨?_, rfl⟩
    show lookupCat (lookupYear (glBuildPure data (discipline.map String.toLower) year yearto) y) c =
      matchingNames data (discipline.map String.toLower) year yearto y c
    exact glBuildPure_lookup data _ year yearto y c

/-- Witness for C5 at a concrete snapshot. -/
theorem laureates_grouping_witness :
    YearsOK [sampleLaureate, adaStored2] ∧
    LaureatesClaim [sampleLaureate, adaStored2] none none none :=
  ⟨by decide, laureates_grouping [sampleLaureate, adaStored2] none none none (by decide)⟩

/-! ## Total counts of both aggregations -/

/-- Sum of the group sizes inside one year entry of the groups dict. -/
def catsTotal (cats : CatGroups) : Nat := (cats.map (fun q => q.2.length)).sum

/-- Sum of all group sizes in the groups dict. -/
def groupsTotal (groups : YearGroups) : Nat :=
  (groups.map (fun g => catsTotal g.2)).sum

/-- Total number of prizes `get_laureates` groups. -/
def glTotalQual (data : List Laureate) (dLower : Option String)
    (year yearto : Option Int) : Nat :=
  (data.map (fun l => (l.nobelPrizes.filter (glSelects dLower year yearto)).length)).sum

theorem catsTotal_add (cats : CatGroups) (c n : String)
    (h : (cats.map Prod.fst).Nodup) :
    catsTotal (addToCat cats c n) = catsTotal cats + 1 := by
  induction cats with
  | nil => rfl
  | cons q rest ih =>
    rw [List.map_cons, List.nodup_cons] at h
    obtain ⟨hq_not, hrest⟩ := h
    rw [addToCat]
    by_cases hq : q.1 == c
    · rw [if_pos (by simp [List.any_cons, hq])]
      have hqc : q.1 = c := by simpa using hq
      have hmap : rest.map (fun x => if x.1 == c then (x.1, x.2 ++ [n]) else x) = rest := by
        have hid : ∀ x ∈ rest, (if x.1 == c then (x.1, x.2 ++ [n]) else x) = x := by
          intro x hx
          have hxk : ¬ (x.1 == c) = true := by
            intro he
            apply hq_not
            rw [List.mem_map]
            exact ⟨x, hx, by rw [show x.1 = c by simpa using he, hqc]⟩
          rw [if_neg hxk]
        rw [List.map_congr_left hid]
        simp
      rw [List.map_cons, if_pos hq, hmap]
      simp only [catsTotal, List.map_cons, List.sum_cons, List.length_append,
        List.length_cons, List.length_nil]
      omega
    · by_cases hr : rest.any (fun x => x.1 == c)
      · rw [if_pos (by simp [List.any_cons, hq, hr])]
        have hb : addToCat rest c n =
            rest.map (fun x => if x.1 == c then (x.1, x.2 ++ [n]) else x) := by
          rw [addToCat, if_pos hr]
        have hsum := ih hrest
        rw [hb] at hsum
        rw [List.map_cons, if_neg hq]
        simp only [catsTotal, List.map_cons, List.sum_cons] at hsum ⊢
        omega
      · rw [if_neg (by simp [List.any_cons, hq, hr])]
        have hb : addToCat rest c n = rest ++ [(c, [n])] := by
          rw [addToCat, if_neg hr]
        have hsum := ih hrest
        rw [hb] at hsum
        rw [List.cons_append]
        simp only [catsTotal, List.map_cons, List.sum_cons] at hsum ⊢
        omega

theorem groupsTotal_add (groups : YearGroups) (y : PyVal) (c n : String)
    (h1 : (groups.map Prod.fst).Nodup)
    (h2 : ∀ g ∈ groups, (g.2.map Prod.fst).Nodup) :
    groupsTotal (addToYear groups y c n) = groupsTotal groups + 1 := by
  induction groups with
  | nil => rfl
  | cons g rest ih =>
    rw [List.map_cons, List.nodup_cons] at h1
    obtain ⟨hg_not, hrest⟩ := h1
    rw [addToYear]
    by_cases hg : g.1 == y
    · rw [if_pos (by simp [List.any_cons, hg])]
      have hgy : g.1 = y := by simpa using hg
      have hmap : rest.map (fun x => if x.1 == y then (x.1, addToCat x.2 c n) else x) =
          rest := by
        have hid : ∀ x ∈ rest, (if x.1 == y then (x.1, addToCat x.2 c n) else x) = x := by
          intro x hx
          have hxk : ¬ (x.1 == y) = true := by
            intro he
            apply hg_not
            rw [List.mem_map]
            exact ⟨x, hx, by rw [show x.1 = y by simpa using he, hgy]⟩
          rw [if_neg hxk]
        rw [List.map_congr_left hid]
        simp
      rw [List.map_cons, if_pos hg, hmap]
      simp only [groupsTotal, List.map_cons, List.sum_cons]
      rw [catsTotal_add g.2 c n (h2 g (by simp))]
      omega
    · by_cases hr : rest.any (fun x => x.1 == y)
      · rw [if_pos (by simp [List.any_cons, hg, hr])]
        have hb : addToYear rest y c n =
            rest.map (fun x => if x.1 == y then (x.1, addToCat x.2 c n) else x) := by
          rw [addToYear, if_pos hr]
        have hsum := ih hrest (fun g' hg' => h2 g' (by simp [hg']))
        rw [hb] at hsum
        rw [List.map_cons, if_neg hg]
        simp only [groupsTotal, List.map_cons, List.sum_cons] at hsum ⊢
        omega
      · rw [if_neg (by simp [List.any_cons, hg, hr])]
        have hb : addToYear rest y c n = rest ++ [(y, [(c, [n])])] := by
          rw [addToYear, if_neg hr]
        have hsum := ih hrest (fun g' hg' => h2 g' (by simp [hg']))
        rw [hb] at hsum
        rw [List.cons_append]
        simp only [groupsTotal, List.map_cons, List.sum_cons] at hsum ⊢
        omega

theorem glStepPure_total (dLower : Option String) (year yearto : Option Int)
    (name : String) (gs : YearGroups) (p : Prize) (h : GroupsWF gs) :
    groupsTotal (glPrizeStepPure dLower year yearto name gs p) =
      groupsTotal gs + (if glSelects dLower year yearto p then 1 else 0) := by
  rw [glPrizeStepPure]
  rcases hay : p.awardYear with _ | ay
  · have hsel : glSelects dLower year yearto p = false := by
      simp [glSelects, ccSelects, yearSelects, hay]
    simp [hsel]
  · rcases hcat : p.category with _ | c
    · have hsel : glSelects dLower year yearto p = false := by
        simp [glSelects, strFalsy, hcat]
      simp [hsel]
    · dsimp only
      by_cases hsel : glSelects dLower year yearto p
      · rw [if_pos hsel, groupsTotal_add gs ay c name h.1 h.2]
        simp [hsel]
      · rw [if_neg hsel]
        simp [hsel]

theorem groupsTotal_glBuildPure (data : List Laureate) (dLower : Option String)
    (year yearto : Option Int) :
    groupsTotal (glBuildPure data dLower year yearto) =
      glTotalQual data dLower year yearto := by
  rw [glBuildPure, glTotalQual]
  have hInner : ∀ (name : String) (ps : List Prize) (gs : YearGroups), GroupsWF gs →
      groupsTotal (ps.foldl (fun gs p => glPrizeStepPure dLower year yearto name gs p) gs) =
        groupsTotal gs + (ps.filter (glSelects dLower year yearto)).length := by
    intro name ps
    induction ps with
    | nil => intro gs _; simp
    | cons p rest ih =>
      intro gs hg
      rw [List.foldl_cons, List.filter_cons,
        ih _ (glStepPure_wf dLower year yearto name gs p hg), glStepPure_total _ _ _ _ _ _ hg]
      by_cases hsel : glSelects dLower year yearto p
      · simp [hsel]
        omega
      · simp [hsel]
  have H : ∀ (dd : List Laureate) (init : YearGroups), GroupsWF init →
      groupsTotal
        (dd.foldl
          (fun gs l =>
            l.nobelPrizes.foldl
              (fun gs p => glPrizeStepPure dLower year yearto (displayName l) gs p) gs)
          init) =
        groupsTotal init +
          (dd.map (fun l => (l.nobelPrizes.filter (glSelects dLower year yearto)).length)).sum := by
    intro dd
    induction dd with
    | nil => intro init _; simp
    | cons l rest ih =>
      intro init h
      have hwf : GroupsWF (l.nobelPrizes.foldl
          (fun gs p => glPrizeStepPure dLower year yearto (displayName l) gs p) init) := by
        have hInnerWf : ∀ (ps : List Prize) (gs : YearGroups), GroupsWF gs →
            GroupsWF (ps.foldl
              (fun gs p => glPrizeStepPure dLower year yearto (displayName l) gs p) gs) := by
          intro ps
          induction ps with
          | nil => intro gs hg; exact hg
          | cons p rest2 ih2 =>
            intro gs hg
            rw [List.foldl_cons]
            exact ih2 _ (glStepPure_wf _ _ _ _ _ _ hg)
        exact hInnerWf l.nobelPrizes init h
      rw [List.foldl_cons, ih _ hwf, hInner (displayName l) l.nobelPrizes init h,
        List.map_cons, List.sum_cons]
      omega
  rw [H data [] ⟨by simp, by simp⟩]
  simp [groupsTotal]

theorem lookupYear_wf (groups : YearGroups)
    (h2 : ∀ g ∈ groups, (g.2.map Prod.fst).Nodup) (y : PyVal) :
    ((lookupYear groups y).map Prod.fst).Nodup := by
  induction groups with
  | nil => simp [lookupYear]
  | cons g rest ih =>
    rw [lookupYear]
    split
    · exact h2 g (by simp)
    · exact ih (fun g' hg' => h2 g' (by simp [hg']))

theorem sum_over_keys_cats (cats : CatGroups) (h : (cats.map Prod.fst).Nodup) :
    ((cats.map Prod.fst).map (fun c => (lookupCat cats c).length)).sum = catsTotal cats := by
  induction cats with
  | nil => rfl
  | cons q rest ih =>
    rw [List.map_cons, List.nodup_cons] at h
    obtain ⟨hq_not, hrest⟩ := h
    rw [List.map_cons, List.map_cons, List.sum_cons]
    have h1 : lookupCat (q :: rest) q.1 = q.2 := by simp [lookupCat]
    have h2 : (rest.map Prod.fst).map (fun c => (lookupCat (q :: rest) c).length) =
        (rest.map Prod.fst).map (fun c => (lookupCat rest c).length) := by
      apply List.map_congr_left
      intro c hc
      have hne : ¬ (q.1 == c) = true := by
        simp only [beq_iff_eq]
        intro he
        exact hq_not (he ▸ hc)
      rw [lookupCat, if_neg hne]
    rw [h1, h2, ih hrest]
    simp [catsTotal]

theorem sum_over_keys_groups (groups : YearGroups) (h : (groups.map Prod.fst).Nodup) :
    ((groups.map Prod.fst).map (fun y => catsTotal (lookupYear groups y))).sum =
      groupsTotal groups := by
  induction groups with
  | nil => rfl
  | cons g rest ih =>
    rw [List.map_cons, List.nodup_cons] at h
    obtain ⟨hg_not, hrest⟩ := h
    rw [List.map_cons, List.map_cons, List.sum_cons]
    have h1 : lookupYear (g :: rest) g.1 = g.2 := by simp [lookupYear]
    have h2 : (rest.map Prod.fst).map (fun y => catsTotal (lookupYear (g :: rest) y)) =
        (rest.map Prod.fst).map (fun y => catsTotal (lookupYear rest y)) := by
      apply List.map_congr_left
      intro y hy
      have hne : ¬ (g.1 == y) = true := by
        simp only [beq_iff_eq]
        intro he
        exact hg_not (he ▸ hy)
      rw [lookupYear, if_neg hne]
    rw [h1, h2, ih hrest]
    simp [groupsTotal]

theorem buildDiscEntries_total (cats : CatGroups) (h : (cats.map Prod.fst).Nodup) :
    ((buildDiscEntries cats).map DiscEntry.count).sum = catsTotal cats := by
  rw [buildDiscEntries, List.map_map]
  have hmap : (DiscEntry.count ∘
      (fun c => ({ discipline := c, count := (lookupCat cats c).length,
                   laureates := lookupCat cats c } : DiscEntry))) =
      fun c => (lookupCat cats c).length := rfl
  rw [hmap]
  have hperm := (List.mergeSort_perm (cats.map Prod.fst) strLe).map
    (fun c => (lookupCat cats c).length)
  rw [hperm.sum_eq]
  exact sum_over_keys_cats cats h

theorem glResults_total (data : List Laureate) (dLower : Option String)
    (year yearto : Option Int) :
    ((glResults data dLower year yearto).map
      (fun ye => (ye.disciplines.map DiscEntry.count).sum)).sum =
      glTotalQual data dLower year yearto := by
  rw [glResults, buildResults, List.map_map]
  have hwf := glBuildPure_wf data dLower year yearto
  have hmap : ((fun ye => (ye.disciplines.map DiscEntry.count).sum) ∘
      (fun y => ({ awardYear := y,
                   disciplines :=
                     buildDiscEntries
                       (lookupYear (glBuildPure data dLower year yearto) y) } : YearEntry))) =
      fun y => ((buildDiscEntries
        (lookupYear (glBuildPure data dLower year yearto) y)).map DiscEntry.count).sum := rfl
  rw [hmap]
  have hcongr :
      (((glBuildPure data dLower year yearto).map Prod.fst).mergeSort pyKeyLe).map
        (fun y => ((buildDiscEntries
          (lookupYear (glBuildPure data dLower year yearto) y)).map DiscEntry.count).sum) =
      (((glBuildPure data dLower year yearto).map Prod.fst).mergeSort pyKeyLe).map
        (fun y => catsTotal (lookupYear (glBuildPure data dLower year yearto) y)) := by
    apply List.map_congr_left
    intro y _
    exact buildDiscEntries_total _ (lookupYear_wf _ hwf.1.2 y)
  rw [hcongr]
  have hperm := (List.mergeSort_perm ((glBuildPure data dLower year yearto).map Prod.fst)
    pyKeyLe).map (fun y => catsTotal (lookupYear (glBuildPure data dLower year yearto) y))
  rw [hperm.sum_eq, sum_over_keys_groups _ hwf.1.1, groupsTotal_glBuildPure]

theorem length_filter_split {α : Type} (l : List α) (p q : α → Bool) :
    (l.filter p).length =
      (l.filter (fun a => p a && q a)).length +
        (l.filter (fun a => p a && !q a)).length := by
  induction l with
  | nil => rfl
  | cons a t ih =>
    simp only [List.filter_cons]
    cases hp : p a <;> cases hq : q a <;> simp [hp, hq] <;> omega

theorem sum_map_add {α : Type} (l : List α) (f g : α → Nat) :
    (l.map (fun a => f a + g a)).sum = (l.map f).sum + (l.map g).sum := by
  induction l with
  | nil => rfl
  | cons a t ih =>
    simp only [List.map_cons, List.sum_cons, ih]
    omega

/-! ## Claim C9: missing-category prizes diverge between the aggregations -/

theorem ccSelects_none (year yearto : Option Int) (p : Prize) :
    ccSelects none year yearto p = yearSelects year yearto p := by
  simp [ccSelects, catPass]

theorem glSelects_none (year yearto : Option Int) (p : Prize) :
    glSelects none year yearto p =
      (!strFalsy p.category && yearSelects year yearto p) := by
  simp [glSelects, ccSelects, catPass]

/-- What claim C9 asserts of a snapshot and year filters, with no category
filter: the country count totals every year-qualifying prize (category
ignored), the year grouping totals only those with a non-falsy category,
and the presence of any year-qualifying prize with a missing/empty
category makes the two totals strictly disagree. -/
def CategoryDivergenceClaim (data : List Laureate) (year yearto : Option Int) : Prop :=
  (countriesTotalCount data none year yearto =
    .ok ((data.map
      (fun l => (l.nobelPrizes.filter (yearSelects year yearto)).length)).sum)) ∧
  (∀ resp, getLaureates data none year yearto = .ok resp →
    resp.total_count =
      (data.map (fun l =>
        (l.nobelPrizes.filter
          (fun p => !strFalsy p.category && yearSelects year yearto p)).length)).sum) ∧
  (∀ l ∈ data, ∀ p ∈ l.nobelPrizes, strFalsy p.category = true →
    yearSelects year yearto p = true →
    ∀ resp tc, getLaureates data none year yearto = .ok resp →
      countriesTotalCount data none year yearto = .ok tc →
      resp.total_count < tc)

/-- Claim C9: with no category filter, a prize whose category is missing
or empty is excluded from the year×category grouping but still counted by
the country aggregation, so the two can disagree on identical filters. -/
theorem missing_category_divergence (data : List Laureate) (year yearto : Option Int)
    (h : YearsOK data) : CategoryDivergenceClaim data year yearto := by
  have hcc : countriesTotalCount data none year yearto =
      .ok ((data.map
        (fun l => (l.nobelPrizes.filter (yearSelects year yearto)).length)).sum) := by
    rw [countriesTotalCount, computeCountryCounts_ok data none year yearto h]
    show Except.ok (sumCounts (ccCountPure data (Option.map String.toLower none) year yearto)) = _
    rw [show Option.map String.toLower none = none from rfl, sumCounts_ccCountPure, totalQual]
    rfl
  have hgl : ∀ resp, getLaureates data none year yearto = .ok resp →
      resp.total_count =
        (data.map (fun l =>
          (l.nobelPrizes.filter
            (fun p => !strFalsy p.category && yearSelects year yearto p)).length)).sum := by
    intro resp hresp
    rw [getLaureates_ok data none year yearto h] at hresp
    have hre := Except.ok.inj hresp
    rw [← hre]
    show ((glResults data (Option.map String.toLower none) year yearto).map
      (fun ye => (ye.disciplines.map DiscEntry.count).sum)).sum = _
    rw [glResults_total, glTotalQual, show Option.map String.toLower none = none from rfl]
    rfl
  refine ⟨hcc, hgl, ?_⟩
  intro l hl p hp hfal hyear resp tc hresp htc
  rw [hgl resp hresp]
  rw [hcc] at htc
  have htc' := Except.ok.inj htc
  rw [← htc']
  have hsplit : ∀ l' : Laureate,
      (l'.nobelPrizes.filter (yearSelects year yearto)).length =
        (l'.nobelPrizes.filter
          (fun p => !strFalsy p.category && yearSelects year yearto p)).length +
        (l'.nobelPrizes.filter
          (fun p => strFalsy p.category && yearSelects year yearto p)).length := by
    intro l'
    rw [length_filter_split l'.nobelPrizes (yearSelects year yearto)
      (fun p => !strFalsy p.category)]
    congr 1
    · congr 1
      apply List.filter_congr
      intro q _
      rw [Bool.and_comm]
    · congr 1
      apply List.filter_congr
      intro q _
      rw [Bool.not_not, Bool.and_comm]
  have hmapeq : data.map
      (fun l' => (l'.nobelPrizes.filter (yearSelects year yearto)).length) =
      data.map (fun l' =>
        (l'.nobelPrizes.filter
          (fun p => !strFalsy p.category && yearSelects year yearto p)).length +
        (l'.nobelPrizes.filter
          (fun p => strFalsy p.category && yearSelects year yearto p)).length) := by
    apply List.map_congr_left
    intro l' _
    exact hsplit l'
  rw [hmapeq, sum_map_add]
  have hC1 : 1 ≤ (l.nobelPrizes.filter
      (fun p => strFalsy p.category && yearSelects year yearto p)).length := by
    have hpmem : p ∈ l.nobelPrizes.filter
        (fun p => strFalsy p.category && yearSelects year yearto p) := by
      rw [List.mem_filter]
      exact ⟨hp, by simp [hfal, hyear]⟩
    have := List.length_pos.mpr (List.ne_nil_of_mem hpmem)
    omega
  have hCsum : 1 ≤ (data.map (fun l' =>
      (l'.nobelPrizes.filter
        (fun p => strFalsy p.category && yearSelects year yearto p)).length)).sum := by
    have hmem : (l.nobelPrizes.filter
        (fun p => strFalsy p.category && yearSelects year yearto p)).length ∈
        data.map (fun l' =>
          (l'.nobelPrizes.filter
            (fun p => strFalsy p.category && yearSelects year yearto p)).length) :=
      List.mem_map_of_mem _ hl
    exact le_trans hC1 (List.single_le_sum (fun x _ => Nat.zero_le x) _ hmem)
  omega

/-- A laureate whose only prize has a valid year but no category. -/
def noCatLaureate : Laureate :=
  { id := some (.vstr "9"), fullName := some "Org X", gender := some "unknown",
    birthDate := none, birthCity := none, birthCountry := some "Atlantis",
    nobelPrizes := [{ awardYear := some (.vint 1999), category := none,
                      motivation := some "m" }] }

/-- Witness for C9, with the concrete divergence: the country count sees
the category-less prize, the year grouping does not. -/
theorem missing_category_divergence_witness :
    YearsOK [noCatLaureate] ∧
    CategoryDivergenceClaim [noCatLaureate] none none ∧
    computeCountryCounts [noCatLaureate] none none none = .ok [("Atlantis", 1)] ∧
    getLaureates [noCatLaureate] none none none =
      .ok { total_count := 0, results := [] } := by
  refine ⟨by decide, missing_category_divergence [noCatLaureate] none none (by decide),
    by decide, ?_⟩
  have h1 : buildYearGroups [noCatLaureate] none none none = .ok [] := by decide
  rw [getLaureates]
  simp only [Option.map_none']
  rw [h1]
  dsimp only
  rw [show sortedPyKeys (([] : YearGroups).map Prod.fst) = .ok [] from by
    rw [sortedPyKeys, if_pos (by decide)]
    rw [show (([] : YearGroups).map Prod.fst) = ([] : List PyVal) from rfl,
      List.mergeSort_nil]]
  rfl

end Nobel
